import Mathlib

/-!
# Game2048: the game-state engine of `src/2048/main.cxx`

A shallow embedding of the board transforms, the terminal-state test, the
validator, the checksum and the save/load record of `class Game2048`,
followed by theorems relating them to the natural-language specification.

Conventions of the embedding:
* `int` is modelled by `Int`; the results of `*=` and `+=` are wrapped into the
  32-bit two's-complement range by `wrap32`;
* `uint32_t` and `uint8_t` are modelled by `Nat` with explicit `% 2^32`;
* `int board[4][4]` is a structure of four rows of four cells, indexed through
  `Row.get`/`Row.set`;
* a member function that mutates `state` becomes a function returning the new
  `GameState` (paired with the returned `bool` where there is one);
* the random draws of `AddRandomTile` and the member `keyboardEnabled` read by
  `HandleKeyPress` are arguments, and a thrown exception is returned next to the
  state the function leaves behind.
-/

namespace Game2048

/-! ## Constants -/

/-- `const int BOARD_SIZE = 4;` -/
def BOARD_SIZE : Nat := 4

/-- Wrap an integer into the range of a 32-bit two's-complement `int`. -/
def wrap32 (x : Int) : Int := (x + 2147483648) % 4294967296 - 2147483648

/-- The values an `int` can hold. -/
def InInt32 (x : Int) : Prop := -2147483648 ≤ x ∧ x < 2147483648

instance (x : Int) : Decidable (InInt32 x) :=
  inferInstanceAs (Decidable (-2147483648 ≤ x ∧ x < 2147483648))

/-! ## Data model -/

/-- One row `state.board[i]`, an `int[4]`. -/
structure Row where
  c0 : Int
  c1 : Int
  c2 : Int
  c3 : Int
deriving DecidableEq

/-- Read `row[j]`. -/
def Row.get (r : Row) (j : Nat) : Int :=
  match j with
  | 0 => r.c0
  | 1 => r.c1
  | 2 => r.c2
  | _ => r.c3

/-- Write `row[j] = v`. -/
def Row.set (r : Row) (j : Nat) (v : Int) : Row :=
  match j with
  | 0 => { r with c0 := v }
  | 1 => { r with c1 := v }
  | 2 => { r with c2 := v }
  | 3 => { r with c3 := v }
  | _ => r

/-- The cells of a row, left to right. -/
def Row.toList (r : Row) : List Int := [r.c0, r.c1, r.c2, r.c3]

/-- The board `int board[4][4]`. -/
structure Board where
  r0 : Row
  r1 : Row
  r2 : Row
  r3 : Row
deriving DecidableEq

/-- Row `board[i]`. -/
def Board.row (b : Board) (i : Nat) : Row :=
  match i with
  | 0 => b.r0
  | 1 => b.r1
  | 2 => b.r2
  | _ => b.r3

/-- Replace row `board[i]`. -/
def Board.setRow (b : Board) (i : Nat) (r : Row) : Board :=
  match i with
  | 0 => { b with r0 := r }
  | 1 => { b with r1 := r }
  | 2 => { b with r2 := r }
  | 3 => { b with r3 := r }
  | _ => b

/-- Read `board[i][j]`. -/
def Board.get (b : Board) (i j : Nat) : Int := (b.row i).get j

/-- Write `board[i][j] = v`. -/
def Board.set (b : Board) (i j : Nat) (v : Int) : Board :=
  b.setRow i ((b.row i).set j v)

/-- Column `c` of the board, read top to bottom. -/
def Board.col (b : Board) (c : Nat) : List Int :=
  [b.get 0 c, b.get 1 c, b.get 2 c, b.get 3 c]

/-- `struct GameState` (packed): board, score, gameOver, won, checksum. -/
structure GameState where
  board : Board
  score : Int
  gameOver : Bool
  won : Bool
  checksum : Nat
deriving DecidableEq

/-! ## MoveLeft -/

/-- One iteration of the first inner loop of `MoveLeft` (compaction) at column
`j`; the loop state is the row, `writePos` and `moved`. -/
def compactStep (st : Row × Nat × Bool) (j : Nat) : Row × Nat × Bool :=
  if st.1.get j ≠ 0 then
    (st.1.set st.2.1 (st.1.get j), st.2.1 + 1, if j ≠ st.2.1 then true else st.2.2)
  else st

/-- `while (writePos < BOARD_SIZE) board[i][writePos++] = 0;` -/
def zeroFill (row : Row) (writePos : Nat) : Row :=
  (List.range' writePos (BOARD_SIZE - writePos)).foldl (fun r k => r.set k 0) row

/-- `for (k = j + 1; k < BOARD_SIZE - 1; k++) board[i][k] = board[i][k + 1];` -/
def shiftTail (row : Row) (j : Nat) : Row :=
  (List.range' (j + 1) (BOARD_SIZE - 1 - (j + 1))).foldl
    (fun r k => r.set k (r.get (k + 1))) row

/-- The part of the state the merge loop of one row works on. -/
structure RowState where
  row : Row
  score : Int
  won : Bool
  moved : Bool
deriving DecidableEq

/-- One iteration of the second inner loop of `MoveLeft` (merge) at column `j`. -/
def mergeStep (st : RowState) (j : Nat) : RowState :=
  if st.row.get j ≠ 0 ∧ st.row.get j = st.row.get (j + 1) then
    let row1 := st.row.set j (wrap32 (st.row.get j * 2))
    let score1 := wrap32 (st.score + row1.get j)
    let row2 := row1.set (j + 1) 0
    let won1 := if row2.get j = 2048 ∧ st.won = false then true else st.won
    let row3 := shiftTail row2 j
    let row4 := row3.set (BOARD_SIZE - 1) 0
    { row := row4, score := score1, won := won1, moved := true }
  else st

/-- The first inner loop of `MoveLeft` followed by the `while` loop, on one row:
the compacted row and the updated `moved`. -/
def compactRow (row : Row) (moved : Bool) : Row × Bool :=
  let c := (List.range BOARD_SIZE).foldl compactStep (row, 0, moved)
  (zeroFill c.1 c.2.1, c.2.2)

/-- The second inner loop of `MoveLeft` (`for j < BOARD_SIZE - 1`) on one row. -/
def mergeRow (st : RowState) : RowState :=
  (List.range (BOARD_SIZE - 1)).foldl mergeStep st

/-- The body of the outer loop of `MoveLeft` on the row `state.board[i]`. -/
def moveLeftRow (st : RowState) : RowState :=
  let c := compactRow st.row st.moved
  mergeRow { row := c.1, score := st.score, won := st.won, moved := c.2 }

/-- One iteration of the outer loop of `MoveLeft` at row `i`. -/
def moveLeftStep (sm : GameState × Bool) (i : Nat) : GameState × Bool :=
  let r := moveLeftRow
    { row := sm.1.board.row i, score := sm.1.score, won := sm.1.won, moved := sm.2 }
  ({ sm.1 with board := sm.1.board.setRow i r.row, score := r.score, won := r.won }, r.moved)

/-- `bool Game2048::MoveLeft()`: the new state and the returned `moved`. -/
def MoveLeft (s : GameState) : GameState × Bool :=
  (List.range BOARD_SIZE).foldl moveLeftStep (s, false)

/-! ## ReverseRows, Transpose and the derived moves -/

/-- `std::swap(board[i][j], board[i2][j2])`. -/
def Board.swap (b : Board) (i j i2 j2 : Nat) : Board :=
  (b.set i j (b.get i2 j2)).set i2 j2 (b.get i j)

/-- `void Game2048::ReverseRows()` on the board. -/
def reverseRowsBoard (b : Board) : Board :=
  (List.range BOARD_SIZE).foldl
    (fun b1 i => (List.range (BOARD_SIZE / 2)).foldl
      (fun b2 j => b2.swap i j i (BOARD_SIZE - 1 - j)) b1) b

/-- `void Game2048::Transpose()` on the board. -/
def transposeBoard (b : Board) : Board :=
  (List.range BOARD_SIZE).foldl
    (fun b1 i => (List.range' (i + 1) (BOARD_SIZE - (i + 1))).foldl
      (fun b2 j => b2.swap i j j i) b1) b

/-- `void Game2048::ReverseRows()`. -/
def ReverseRows (s : GameState) : GameState := { s with board := reverseRowsBoard s.board }

/-- `void Game2048::Transpose()`. -/
def Transpose (s : GameState) : GameState := { s with board := transposeBoard s.board }

/-- `bool Game2048::MoveRight()`. -/
def MoveRight (s : GameState) : GameState × Bool :=
  let m := MoveLeft (ReverseRows s)
  (ReverseRows m.1, m.2)

/-- `bool Game2048::MoveUp()`. -/
def MoveUp (s : GameState) : GameState × Bool :=
  let m := MoveLeft (Transpose s)
  (Transpose m.1, m.2)

/-- `bool Game2048::MoveDown()`. -/
def MoveDown (s : GameState) : GameState × Bool :=
  let m := MoveLeft (ReverseRows (Transpose s))
  (Transpose (ReverseRows m.1), m.2)

/-! ## CanMove and CheckGameOver -/

/-- `bool Game2048::CanMove()`. -/
def CanMove (s : GameState) : Bool :=
  if (List.range BOARD_SIZE).any
      (fun i => (List.range BOARD_SIZE).any (fun j => s.board.get i j == 0)) then true
  else if (List.range BOARD_SIZE).any
      (fun i => (List.range BOARD_SIZE).any (fun j =>
        (decide (j < BOARD_SIZE - 1) && s.board.get i j == s.board.get i (j + 1)) ||
        (decide (i < BOARD_SIZE - 1) && s.board.get i j == s.board.get (i + 1) j))) then true
  else false

/-- `void Game2048::CheckGameOver()`. -/
def CheckGameOver (s : GameState) : GameState :=
  if !CanMove s then { s with gameOver := true } else s

/-! ## Specification-level row transform

These follow the words of the specification, not the code: drop the zeros,
merge equal neighbours scanning from the left, pad with zeros. -/

/-- Drop the zeros, keeping the order of the remaining values. -/
def dropZeros (l : List Int) : List Int := l.filter (fun x => x ≠ 0)

/-- Scanning from the left, replace each pair of equal neighbours by one tile of
double the value; a tile produced by a merge is not merged again. -/
def mergePairs : List Int → List Int
  | a :: b :: t => if a = b then (2 * a) :: mergePairs t else a :: mergePairs (b :: t)
  | l => l

/-- The tiles produced by the merges of `mergePairs`, in order. -/
def mergedTiles : List Int → List Int
  | a :: b :: t => if a = b then (2 * a) :: mergedTiles t else mergedTiles (b :: t)
  | _ => []

/-- Pad with zeros on the right to length 4. -/
def padRight (l : List Int) : List Int := l ++ List.replicate (4 - l.length) 0

/-- The left-move row transform of the specification. -/
def specRow (l : List Int) : List Int := padRight (mergePairs (dropZeros l))

/-- The score gained on one row: the sum of the tiles produced by merges. -/
def specGain (l : List Int) : Int := (mergedTiles (dropZeros l)).sum

/-! ## The row transform with the arithmetic of the code

The same three steps, with the doubling and the score addition wrapped to 32
bits as `*= 2` and `+=` on an `int` do. -/

/-- The scan of `mergePairs` with the doubled value wrapped to 32 bits. -/
def mergePairsW : List Int → List Int
  | a :: b :: t =>
    if a = b then wrap32 (a * 2) :: mergePairsW t else a :: mergePairsW (b :: t)
  | l => l

/-- The tiles produced by the merges of `mergePairsW`, in order. -/
def mergedTilesW : List Int → List Int
  | a :: b :: t => if a = b then wrap32 (a * 2) :: mergedTilesW t else mergedTilesW (b :: t)
  | _ => []

/-- The left-move row transform as the code computes it. -/
def leftRow (l : List Int) : List Int := padRight (mergePairsW (dropZeros l))

/-- The tiles the left move produces by merging on one row. -/
def leftTiles (l : List Int) : List Int := mergedTilesW (dropZeros l)

/-- Add the tiles to the score one after the other, as `score += tile` does. -/
def addTiles (score : Int) (tiles : List Int) : Int :=
  tiles.foldl (fun s t => wrap32 (s + t)) score

/-- The row holding the first four entries of a list. -/
def rowOfList (l : List Int) : Row := ⟨l.getD 0 0, l.getD 1 0, l.getD 2 0, l.getD 3 0⟩

/-- The board after the left move: every row transformed by `leftRow`. -/
def leftBoard (b : Board) : Board :=
  ⟨rowOfList (leftRow b.r0.toList), rowOfList (leftRow b.r1.toList),
   rowOfList (leftRow b.r2.toList), rowOfList (leftRow b.r3.toList)⟩

/-- The tiles the left move produces by merging, rows 0 to 3 in order. -/
def boardTiles (b : Board) : List Int :=
  leftTiles b.r0.toList ++ leftTiles b.r1.toList ++ leftTiles b.r2.toList ++ leftTiles b.r3.toList

/-! ## Hypotheses and example states -/

/-- The sixteen cells of the board, row by row. -/
def Board.cells (b : Board) : List Int :=
  b.r0.toList ++ b.r1.toList ++ b.r2.toList ++ b.r3.toList

/-- Every cell can be doubled without leaving the range of an `int`. -/
def SmallCells (b : Board) : Prop := ∀ x ∈ b.cells, -1073741824 ≤ x ∧ x < 1073741824

instance (b : Board) : Decidable (SmallCells b) :=
  inferInstanceAs (Decidable (∀ x ∈ b.cells, -1073741824 ≤ x ∧ x < 1073741824))

/-- The tiles the specification's left move produces by merging, rows 0 to 3. -/
def specTiles (b : Board) : List Int :=
  mergedTiles (dropZeros b.r0.toList) ++ mergedTiles (dropZeros b.r1.toList) ++
    mergedTiles (dropZeros b.r2.toList) ++ mergedTiles (dropZeros b.r3.toList)

/-- The rows of the examples of the specification, one per row of the board. -/
def exampleBoard : Board := ⟨⟨2, 2, 2, 2⟩, ⟨2, 0, 2, 0⟩, ⟨2, 2, 4, 0⟩, ⟨2, 0, 0, 0⟩⟩

/-- A fresh state on `exampleBoard`. -/
def exampleState : GameState := ⟨exampleBoard, 0, false, false, 0⟩

/-- Two tiles of 2^30 side by side. -/
def bigTileState : GameState :=
  ⟨⟨⟨1073741824, 1073741824, 0, 0⟩, ⟨0, 0, 0, 0⟩, ⟨0, 0, 0, 0⟩, ⟨0, 0, 0, 0⟩⟩, 0, false, false, 0⟩

/-- A merge of two 2-tiles at the largest score an `int` holds. -/
def bigScoreState : GameState :=
  ⟨⟨⟨2, 2, 0, 0⟩, ⟨0, 0, 0, 0⟩, ⟨0, 0, 0, 0⟩, ⟨0, 0, 0, 0⟩⟩, 2147483647, false, false, 0⟩

/-- A row on which a second left move merges again: `[2,2,4,0]`. -/
def mergeAgainState : GameState :=
  ⟨⟨⟨2, 2, 4, 0⟩, ⟨0, 0, 0, 0⟩, ⟨0, 0, 0, 0⟩, ⟨0, 0, 0, 0⟩⟩, 0, false, false, 0⟩

/-- A board on which the left move merges once and then comes to rest. -/
def quietState : GameState :=
  ⟨⟨⟨2, 0, 2, 0⟩, ⟨2, 0, 0, 0⟩, ⟨0, 0, 0, 0⟩, ⟨0, 4, 0, 2⟩⟩, 0, false, false, 0⟩

/-- No two neighbouring cells of the row hold the same nonzero value. -/
def Row.noEqualPair (r : Row) : Prop := ∀ j, j < 3 → r.get j = 0 ∨ r.get j ≠ r.get (j + 1)

/-- No cell of the board is empty. -/
def Board.full (b : Board) : Prop := ∀ i, i < 4 → ∀ j, j < 4 → b.get i j ≠ 0

/-- Two horizontally or vertically adjacent cells hold equal values. -/
def Board.hasEqualNeighbours (b : Board) : Prop :=
  (∃ i, i < 4 ∧ ∃ j, j < 3 ∧ b.get i j = b.get i (j + 1)) ∨
  (∃ i, i < 3 ∧ ∃ j, j < 4 ∧ b.get i j = b.get (i + 1) j)

instance (b : Board) : Decidable b.full :=
  inferInstanceAs (Decidable (∀ i, i < 4 → ∀ j, j < 4 → b.get i j ≠ 0))

instance (b : Board) : Decidable b.hasEqualNeighbours :=
  inferInstanceAs (Decidable ((∃ i, i < 4 ∧ ∃ j, j < 3 ∧ b.get i j = b.get i (j + 1)) ∨
    (∃ i, i < 3 ∧ ∃ j, j < 4 ∧ b.get i j = b.get (i + 1) j)))

/-- A full board without equal neighbours. -/
def stuckState : GameState :=
  ⟨⟨⟨2, 4, 2, 4⟩, ⟨4, 2, 4, 2⟩, ⟨2, 4, 2, 4⟩, ⟨4, 2, 4, 2⟩⟩, 0, false, false, 0⟩

/-- Two tiles of 1024 side by side. -/
def winningState : GameState :=
  ⟨⟨⟨1024, 1024, 0, 0⟩, ⟨0, 0, 0, 0⟩, ⟨0, 0, 0, 0⟩, ⟨0, 0, 0, 0⟩⟩, 0, false, false, 0⟩

/-! ## Validator -/

/-- `bool Game2048::IsValidTileValue(int value) const`.  The last line is reached
with `value > 0`, where `value` and `value - 1` are non-negative and `&` is the
bitwise and of the two naturals. -/
def IsValidTileValue (value : Int) : Bool :=
  if value = 0 then true
  else if value < 0 then false
  else (value.toNat &&& (value - 1).toNat) == 0

/-- The body shared by the two overloads of `ValidateGameState`: the score test
and the double loop over the cells. -/
def validateFields (score : Int) (board : Board) : Bool :=
  if score < 0 then false
  else if (List.range BOARD_SIZE).any
      (fun i => (List.range BOARD_SIZE).any (fun j => !IsValidTileValue (board.get i j))) then
    false
  else true

/-- `bool Game2048::ValidateGameState() const`, on the member `state`. -/
def ValidateGameState (state : GameState) : Bool := validateFields state.score state.board

/-- `bool Game2048::ValidateGameState(const GameState& gameState) const`. -/
def ValidateGameStateOf (gameState : GameState) : Bool :=
  validateFields gameState.score gameState.board

/-! ## Memory image of `GameState`

`#pragma pack(push, 1)` leaves no padding: 16 `int`s, the score, two `bool`
bytes and the checksum, 74 bytes, integers little-endian. -/

/-- `const uint32_t SAVE_FILE_VERSION = 1;` -/
def SAVE_FILE_VERSION : Nat := 1

/-- `const char SAVE_FILE_HEADER[9] = "2048SAVE";` with its terminating NUL. -/
def SAVE_FILE_HEADER : List Nat := [50, 48, 52, 56, 83, 65, 86, 69, 0]

/-- `sizeof(SAVE_FILE_HEADER)`. -/
def sizeofHeader : Nat := 9

/-- `sizeof(SAVE_FILE_VERSION)` and `sizeof(state.checksum)`: a `uint32_t`. -/
def sizeofUInt32 : Nat := 4

/-- `sizeof(GameState)` under `#pragma pack(1)`. -/
def sizeofGameState : Nat := BOARD_SIZE * BOARD_SIZE * 4 + 4 + 1 + 1 + sizeofUInt32

/-- Reduce to the range of a `uint32_t`. -/
def u32 (n : Nat) : Nat := n % 4294967296

/-- The four bytes of a `uint32_t`, least significant first. -/
def uint32Bytes (n : Nat) : List Nat :=
  [n % 256, n / 256 % 256, n / 65536 % 256, n / 16777216 % 256]

/-- The four bytes of an `int` in two's complement, least significant first. -/
def int32Bytes (x : Int) : List Nat := uint32Bytes (x % 4294967296).toNat

/-- The byte of a `bool`. -/
def boolByte (b : Bool) : Nat := if b then 1 else 0

/-- The `uint32_t` stored in four bytes. -/
def uint32OfBytes (bs : List Nat) : Nat :=
  bs.getD 0 0 + 256 * bs.getD 1 0 + 65536 * bs.getD 2 0 + 16777216 * bs.getD 3 0

/-- The `int` stored in four bytes. -/
def int32OfBytes (bs : List Nat) : Int :=
  if uint32OfBytes bs < 2147483648 then (uint32OfBytes bs : Int)
  else (uint32OfBytes bs : Int) - 4294967296

/-- The bytes of one row of the board. -/
def Row.bytes (r : Row) : List Nat :=
  int32Bytes r.c0 ++ int32Bytes r.c1 ++ int32Bytes r.c2 ++ int32Bytes r.c3

/-- The bytes of the board, row after row. -/
def Board.bytes (b : Board) : List Nat := b.r0.bytes ++ b.r1.bytes ++ b.r2.bytes ++ b.r3.bytes

/-- The object representation of a `GameState`: what
`reinterpret_cast<const uint8_t*>(&state)` points at. -/
def stateBytes (s : GameState) : List Nat :=
  s.board.bytes ++ int32Bytes s.score ++ [boolByte s.gameOver] ++ [boolByte s.won] ++
    uint32Bytes s.checksum

/-- The row stored in 16 bytes. -/
def rowOfBytes (bs : List Nat) : Row :=
  ⟨int32OfBytes (bs.take 4), int32OfBytes ((bs.drop 4).take 4),
   int32OfBytes ((bs.drop 8).take 4), int32OfBytes ((bs.drop 12).take 4)⟩

/-- The board stored in 64 bytes. -/
def boardOfBytes (bs : List Nat) : Board :=
  ⟨rowOfBytes (bs.take 16), rowOfBytes ((bs.drop 16).take 16),
   rowOfBytes ((bs.drop 32).take 16), rowOfBytes ((bs.drop 48).take 16)⟩

/-- The `GameState` whose object representation is `bs`; a `bool` byte other than
0 reads as true. -/
def stateOfBytes (bs : List Nat) : GameState :=
  { board := boardOfBytes (bs.take 64),
    score := int32OfBytes ((bs.drop 64).take 4),
    gameOver := bs.getD 68 0 != 0,
    won := bs.getD 69 0 != 0,
    checksum := uint32OfBytes ((bs.drop 70).take 4) }

/-! ## Checksum -/

/-- One iteration `checksum = (checksum << 5) + checksum + data[i];` in `uint32_t`
arithmetic. -/
def checksumStep (data : List Nat) (checksum : Nat) (i : Nat) : Nat :=
  u32 (u32 (u32 (checksum <<< 5) + checksum) + data.getD i 0)

/-- The loop `for (size_t i = 0; i < dataSize; ++i)` starting from `checksum = 0`. -/
def checksumLoop (data : List Nat) (dataSize : Nat) : Nat :=
  (List.range dataSize).foldl (checksumStep data) 0

/-- `uint32_t Game2048::CalculateChecksum() const`, on the member `state`. -/
def CalculateChecksum (state : GameState) : Nat :=
  checksumLoop (stateBytes state) (sizeofGameState - sizeofUInt32)

/-- `uint32_t Game2048::CalculateChecksum(const GameState& gameState) const`, given the
object representation of `gameState`. -/
def CalculateChecksumOf (gameState : List Nat) : Nat :=
  checksumLoop gameState (sizeofGameState - sizeofUInt32)

/-! ## Save and load -/

/-- The writes of `SaveGameWithDialog` once the file is open: `none` when the
validator refuses, else the state with its checksum field set and the bytes
written (header, version, state). -/
def SaveGame (state : GameState) : Option (GameState × List Nat) :=
  if !ValidateGameState state then none
  else
    let state1 := { state with checksum := CalculateChecksum state }
    some (state1, SAVE_FILE_HEADER ++ uint32Bytes SAVE_FILE_VERSION ++ stateBytes state1)

/-- The failures `LoadGameWithDialog` reports, by the check that fails. -/
inductive LoadError where
  /-- The file size is not the expected one. -/
  | BadLength
  /-- The header differs from `SAVE_FILE_HEADER`. -/
  | BadMagic
  /-- The version differs from `SAVE_FILE_VERSION`. -/
  | UnsupportedVersion
  /-- The stored checksum differs from the computed one. -/
  | ChecksumMismatch
  /-- The validator refuses the loaded state. -/
  | InvalidState
deriving DecidableEq

/-- `size_t expectedSize` of `LoadGameWithDialog`. -/
def expectedSize : Nat := sizeofHeader + sizeofUInt32 + sizeofGameState

/-- The bytes `file.read(header, sizeof(header))` reads. -/
def fileHeader (file : List Nat) : List Nat := file.take sizeofHeader

/-- The `uint32_t fileVersion` read after the header. -/
def fileVersion (file : List Nat) : Nat :=
  uint32OfBytes ((file.drop sizeofHeader).take sizeofUInt32)

/-- The object representation of `loadedState` as read from the file. -/
def loadedBytes (file : List Nat) : List Nat :=
  (file.drop (sizeofHeader + sizeofUInt32)).take sizeofGameState

/-- `uint32_t calculatedChecksum = loadedState.checksum;` -/
def storedChecksum (file : List Nat) : Nat := (stateOfBytes (loadedBytes file)).checksum

/-- The object representation of `loadedState` after `loadedState.checksum = 0;`. -/
def loadedBytesCleared (file : List Nat) : List Nat :=
  (loadedBytes file).take (sizeofGameState - sizeofUInt32) ++ uint32Bytes 0

/-- `loadedState` after `loadedState.checksum = 0;`. -/
def loadedState (file : List Nat) : GameState := stateOfBytes (loadedBytesCleared file)

/-- The part of `LoadGameWithDialog` after the file is open, on the bytes of the
file: the new live state and the failure reported, `none` on success. -/
def LoadGame (state : GameState) (file : List Nat) : GameState × Option LoadError :=
  if file.length ≠ expectedSize then (state, some LoadError.BadLength)
  else if fileHeader file ≠ SAVE_FILE_HEADER then (state, some LoadError.BadMagic)
  else if fileVersion file ≠ SAVE_FILE_VERSION then (state, some LoadError.UnsupportedVersion)
  else if storedChecksum file ≠ CalculateChecksumOf (loadedBytesCleared file) then
    (state, some LoadError.ChecksumMismatch)
  else if !ValidateGameStateOf (loadedState file) then (state, some LoadError.InvalidState)
  else (loadedState file, none)

/-! ## Specification-level checksum -/

/-- The tightly packed payload that precedes the checksum field: the 16 board
integers, the score, the gameOver byte and the won byte. -/
def payloadPrefix (s : GameState) : List Nat :=
  (s.board.cells.map int32Bytes).flatten ++ int32Bytes s.score ++
    [boolByte s.gameOver, boolByte s.won]

/-- The rolling hash of the specification: `h := (h * 33 + byte) mod 2^32` from `h = 0`. -/
def rollingHash (bytes : List Nat) : Nat :=
  bytes.foldl (fun h b => (h * 33 + b) % 4294967296) 0

/-- The cells and the score are values of an `int`. -/
def GameState.InRange (s : GameState) : Prop :=
  (∀ x ∈ s.board.cells, InInt32 x) ∧ InInt32 s.score

instance (s : GameState) : Decidable s.InRange :=
  inferInstanceAs (Decidable ((∀ x ∈ s.board.cells, InInt32 x) ∧ InInt32 s.score))

/-- What saving `exampleState` yields: the state with its checksum and the record. -/
def exampleSaved : GameState × List Nat :=
  ({ exampleState with checksum := CalculateChecksum exampleState },
   SAVE_FILE_HEADER ++ uint32Bytes SAVE_FILE_VERSION ++
     stateBytes { exampleState with checksum := CalculateChecksum exampleState })

/-- A board with a tile of 1. -/
def oneTileState : GameState :=
  ⟨⟨⟨1, 0, 0, 0⟩, ⟨0, 0, 0, 0⟩, ⟨0, 0, 0, 0⟩, ⟨0, 0, 0, 0⟩⟩, 0, false, false, 0⟩

/-- The record of `exampleState` laid out with an 8-byte tag: 86 bytes. -/
def shortTagRecord : List Nat :=
  [50, 48, 52, 56, 83, 65, 86, 69] ++ uint32Bytes SAVE_FILE_VERSION ++ stateBytes exampleSaved.1

/-! ## AddRandomTile -/

/-- The two exceptions `AddRandomTile` throws. -/
inductive SpawnError where
  /-- `"No empty cells available for new tile"`. -/
  | NoEmptyCell
  /-- `"Game state invalid after adding random tile"`. -/
  | StateInvalid
deriving DecidableEq

/-- The vector `emptyCells` that the double loop of `AddRandomTile` fills. -/
def emptyCells (b : Board) : List (Nat × Nat) :=
  (List.range BOARD_SIZE).foldl
    (fun cells i => (List.range BOARD_SIZE).foldl
      (fun cells2 j => if b.get i j = 0 then cells2 ++ [(i, j)] else cells2) cells) []

/-- `void Game2048::AddRandomTile()`, with the two random draws as arguments:
`index` is the value of `dis(gen)`, drawn from `0 .. emptyCells.size() - 1`, and
`below` tells whether `prob(gen) < 0.9`.  The result is the state as the function
leaves it and the exception thrown, if any. -/
def AddRandomTile (state : GameState) (index : Nat) (below : Bool) :
    GameState × Option SpawnError :=
  if (emptyCells state.board).isEmpty then (state, some SpawnError.NoEmptyCell)
  else
    let cell := (emptyCells state.board).getD index (0, 0)
    let state1 :=
      { state with board := state.board.set cell.1 cell.2 (if below then 2 else 4) }
    if !ValidateGameState state1 then (state1, some SpawnError.StateInvalid)
    else (state1, none)

/-! ## HandleKeyPress -/

/-- The four directions of the `switch` of `HandleKeyPress`. -/
inductive Direction where
  /-- `VK_LEFT` or `'A'`. -/
  | left
  /-- `VK_RIGHT` or `'D'`. -/
  | right
  /-- `VK_UP` or `'W'`. -/
  | up
  /-- `VK_DOWN` or `'S'`. -/
  | down
deriving DecidableEq

/-- `VK_LEFT` of `winuser.h`. -/
def VK_LEFT : Nat := 37

/-- `VK_UP` of `winuser.h`. -/
def VK_UP : Nat := 38

/-- `VK_RIGHT` of `winuser.h`. -/
def VK_RIGHT : Nat := 39

/-- `VK_DOWN` of `winuser.h`. -/
def VK_DOWN : Nat := 40

/-- The `case` labels of `switch (wParam)`: the direction a key stands for, `none`
for the `default` label. -/
def keyDirection (wParam : Nat) : Option Direction :=
  if wParam = VK_LEFT ∨ wParam = 65 then some Direction.left
  else if wParam = VK_RIGHT ∨ wParam = 68 then some Direction.right
  else if wParam = VK_UP ∨ wParam = 87 then some Direction.up
  else if wParam = VK_DOWN ∨ wParam = 83 then some Direction.down
  else none

/-- The move function each `case` calls. -/
def applyMove (d : Direction) (s : GameState) : GameState × Bool :=
  match d with
  | Direction.left => MoveLeft s
  | Direction.right => MoveRight s
  | Direction.up => MoveUp s
  | Direction.down => MoveDown s

/-- The state on which the `MoveLeft` call inside a move works: the board turned
by `ReverseRows` and `Transpose` as the move does before calling `MoveLeft`. -/
def orient (d : Direction) (s : GameState) : GameState :=
  match d with
  | Direction.left => s
  | Direction.right => ReverseRows s
  | Direction.up => Transpose s
  | Direction.down => ReverseRows (Transpose s)

/-- `void Game2048::HandleKeyPress(WPARAM wParam, LPARAM lParam)` with the member
`keyboardEnabled` and the two random draws of `AddRandomTile` as arguments: the
state afterwards and the exception the `catch` block caught, if any. -/
def HandleKeyPress (state : GameState) (keyboardEnabled : Bool) (wParam lParam : Nat)
    (index : Nat) (below : Bool) : GameState × Option SpawnError :=
  if state.gameOver || !keyboardEnabled then (state, none)
  else if lParam &&& 1073741824 ≠ 0 then (state, none)
  else
    match keyDirection wParam with
    | none => (state, none)
    | some d =>
      let m := applyMove d state
      if m.2 then
        let a := AddRandomTile m.1 index below
        match a.2 with
        | some e => (a.1, some e)
        | none => (CheckGameOver a.1, none)
      else (m.1, none)

/-- No 32-bit overflow occurs in `MoveLeft` on a state of non-negative cells and
score: every tile produced by a merge and the score with all of them added stay
below 2^31. -/
def NoOverflow (s : GameState) : Prop :=
  (∀ t ∈ specTiles s.board, t < 2147483648) ∧
  s.score + (specTiles s.board).sum < 2147483648

instance (s : GameState) : Decidable (NoOverflow s) :=
  inferInstanceAs (Decidable ((∀ t ∈ specTiles s.board, t < 2147483648) ∧
    s.score + (specTiles s.board).sum < 2147483648))

/-! ## Rows on which nothing moves -/

/-- The row read from the right. -/
def Row.reverse (r : Row) : Row := ⟨r.c3, r.c2, r.c1, r.c0⟩

/-- The left move neither slides nor merges anything on the row. -/
def Row.fixedLeft (r : Row) : Prop := rowOfList (leftRow r.toList) = r

/-- A row on which neither the left nor the right move does anything: it is empty,
or full without two equal neighbours. -/
def Row.stuck (r : Row) : Prop :=
  (∀ j, j < 4 → r.get j = 0) ∨
  ((∀ j, j < 4 → r.get j ≠ 0) ∧ ∀ j, j < 3 → r.get j ≠ r.get (j + 1))

/-- The board holds at least one nonzero tile. -/
def Board.hasTile (b : Board) : Prop := ∃ i, i < 4 ∧ ∃ j, j < 4 ∧ b.get i j ≠ 0

instance (b : Board) : Decidable b.hasTile :=
  inferInstanceAs (Decidable (∃ i, i < 4 ∧ ∃ j, j < 4 ∧ b.get i j ≠ 0))

/-! # Theorems -/

/-! ## Unrolling the loops -/

theorem range_board : List.range BOARD_SIZE = [0, 1, 2, 3] := rfl
theorem zeroFill_0 (r : Row) : zeroFill r 0 = (((r.set 0 0).set 1 0).set 2 0).set 3 0 := rfl
theorem zeroFill_1 (r : Row) : zeroFill r 1 = ((r.set 1 0).set 2 0).set 3 0 := rfl
theorem zeroFill_2 (r : Row) : zeroFill r 2 = (r.set 2 0).set 3 0 := rfl
theorem zeroFill_3 (r : Row) : zeroFill r 3 = r.set 3 0 := rfl
theorem zeroFill_4 (r : Row) : zeroFill r 4 = r := rfl
theorem shiftTail_0 (r : Row) :
    shiftTail r 0 = (r.set 1 (r.get 2)).set 2 ((r.set 1 (r.get 2)).get 3) := rfl
theorem shiftTail_1 (r : Row) : shiftTail r 1 = r.set 2 (r.get 3) := rfl
theorem shiftTail_2 (r : Row) : shiftTail r 2 = r := rfl
theorem board_size_pred : BOARD_SIZE - 1 = 3 := rfl

theorem compactRow_eq (r : Row) (m : Bool) :
    compactRow r m = (rowOfList (padRight (dropZeros r.toList)),
      m || decide (rowOfList (padRight (dropZeros r.toList)) ≠ r)) := by
  rcases r with ⟨a, b, c, d⟩
  by_cases ha : a = 0 <;> by_cases hb : b = 0 <;> by_cases hc : c = 0 <;> by_cases hd : d = 0 <;>
    simp [compactRow, range_board, compactStep, zeroFill_0, zeroFill_1, zeroFill_2,
      zeroFill_3, zeroFill_4, Row.get, Row.set, rowOfList,
      Row.toList, padRight, dropZeros, ha, hb, hc, hd]

theorem or_after_guard (x y : Bool) : (x && !y || y) = (y || x) := by
  cases x <;> cases y <;> rfl

theorem mergeRow_unfold (st : RowState) :
    mergeRow st = mergeStep (mergeStep (mergeStep st 0) 1) 2 := rfl

theorem mergeRow_eq (l : List Int) (hl : ∀ x ∈ l, x ≠ 0) (hlen : l.length ≤ 4)
    (sc : Int) (w m : Bool) :
    mergeRow { row := rowOfList (padRight l), score := sc, won := w, moved := m } =
      { row := rowOfList (padRight (mergePairsW l)),
        score := addTiles sc (mergedTilesW l),
        won := w || (mergedTilesW l).any (fun t => decide (t = 2048)),
        moved := m || decide (mergedTilesW l ≠ []) } := by
  match l, hl, hlen with
  | [], _, _ => simp [mergeRow_unfold, mergeStep, rowOfList, padRight, mergePairsW, mergedTilesW,
      addTiles, Row.get]
  | [a], h, _ =>
    simp at h
    simp [mergeRow_unfold, mergeStep, rowOfList, padRight, mergePairsW, mergedTilesW,
      addTiles, Row.get, h, Ne.symm h]
  | [a, b], h, _ =>
    simp at h
    cases w <;> by_cases hab : a = b <;>
    simp [mergeRow_unfold, mergeStep, rowOfList, padRight, mergePairsW, mergedTilesW,
      addTiles, Row.get, Row.set, h, hab, shiftTail_0, shiftTail_1, shiftTail_2, board_size_pred]
  | [a, b, c], h, _ =>
    simp at h
    cases w <;> by_cases hab : a = b <;> by_cases hbc : b = c <;>
    simp [mergeRow_unfold, mergeStep, rowOfList, padRight, mergePairsW, mergedTilesW,
      addTiles, Row.get, Row.set, h, hab, hbc, shiftTail_0, shiftTail_1, shiftTail_2,
      board_size_pred]
    all_goals simp_all [or_after_guard]
  | [a, b, c, d], h, _ =>
    simp at h
    cases w <;> by_cases hab : a = b <;> by_cases hbc : b = c <;> by_cases hcd : c = d <;>
    simp [mergeRow_unfold, mergeStep, rowOfList, padRight, mergePairsW, mergedTilesW,
      addTiles, Row.get, Row.set, h, hab, hbc, hcd, shiftTail_0, shiftTail_1, shiftTail_2,
      board_size_pred]
    all_goals simp_all [or_after_guard]
  | _ :: _ :: _ :: _ :: _ :: _, _, h => simp at h

theorem rowOfList_toList (r : Row) : rowOfList r.toList = r := rfl

theorem toList_rowOfList (l : List Int) (h : l.length = 4) : (rowOfList l).toList = l := by
  match l, h with
  | [a, b, c, d], _ => rfl

theorem padRight_length (l : List Int) (h : l.length ≤ 4) : (padRight l).length = 4 := by
  simp [padRight]; omega

theorem dropZeros_ne_zero (l : List Int) : ∀ x ∈ dropZeros l, x ≠ 0 := by
  intro x hx
  simpa [dropZeros] using (List.mem_filter.mp hx).2

theorem dropZeros_length_le (l : List Int) : (dropZeros l).length ≤ l.length :=
  List.length_filter_le _ _

theorem merge_length (l : List Int) :
    (mergePairsW l).length + (mergedTilesW l).length = l.length := by
  induction l using mergePairsW.induct with
  | case1 b t ih => simp [mergePairsW, mergedTilesW]; omega
  | case2 a b t h ih => simp [mergePairsW, mergedTilesW, h] at ih ⊢; omega
  | case3 l h =>
    match l with
    | [] => simp [mergePairsW, mergedTilesW]
    | [a] => simp [mergePairsW, mergedTilesW]
    | a :: b :: t => exact absurd rfl (h a b t)

theorem mergePairsW_of_no_tiles (l : List Int) (h : mergedTilesW l = []) : mergePairsW l = l := by
  induction l using mergePairsW.induct with
  | case1 b t ih => simp [mergedTilesW] at h
  | case2 a b t hab ih =>
    simp [mergedTilesW, hab] at h
    simp [mergePairsW, hab, ih h]
  | case3 l hl =>
    match l with
    | [] => simp [mergePairsW]
    | [a] => simp [mergePairsW]
    | a :: b :: t => exact absurd rfl (hl a b t)

/-- number of nonzero cells -/
theorem countP_padRight (l : List Int) :
    (padRight l).countP (fun x => x ≠ 0) = l.countP (fun x => x ≠ 0) := by
  simp [padRight, List.countP_append, List.countP_replicate]

theorem dropZeros_length (l : List Int) : (dropZeros l).length = l.countP (fun x => x ≠ 0) := by
  simp [dropZeros, List.countP_eq_length_filter]

theorem leftRow_length (l : List Int) (h : l.length = 4) : (leftRow l).length = 4 := by
  apply padRight_length
  have h1 := merge_length (dropZeros l)
  have h2 := dropZeros_length_le l
  omega

theorem leftRow_fixed (l : List Int) (h : leftRow l = l) :
    leftTiles l = [] ∧ padRight (dropZeros l) = l := by
  have h1 := merge_length (dropZeros l)
  have h2 := dropZeros_length l
  have h3 := countP_padRight (mergePairsW (dropZeros l))
  have h4 : (mergePairsW (dropZeros l)).countP (fun x => x ≠ 0) ≤ (mergePairsW (dropZeros l)).length :=
    List.countP_le_length _
  have h5 : (leftRow l).countP (fun x => x ≠ 0) = l.countP (fun x => x ≠ 0) := by rw [h]
  unfold leftRow at h5
  have h6 : (mergedTilesW (dropZeros l)).length = 0 := by omega
  have h7 : mergedTilesW (dropZeros l) = [] := List.length_eq_zero.mp h6
  refine ⟨h7, ?_⟩
  have h8 := mergePairsW_of_no_tiles _ h7
  unfold leftRow at h
  rw [h8] at h
  exact h

theorem moveLeftRow_eq (st : RowState) :
    moveLeftRow st =
      { row := rowOfList (leftRow st.row.toList),
        score := addTiles st.score (leftTiles st.row.toList),
        won := st.won || (leftTiles st.row.toList).any (fun t => decide (t = 2048)),
        moved := st.moved || decide (rowOfList (leftRow st.row.toList) ≠ st.row) } := by
  have hlen : (dropZeros st.row.toList).length ≤ 4 := dropZeros_length_le st.row.toList
  unfold moveLeftRow
  simp only [compactRow_eq]
  rw [mergeRow_eq _ (dropZeros_ne_zero _) hlen]
  simp only [leftRow, leftTiles, RowState.mk.injEq, true_and]
  rw [Bool.or_assoc]
  congr 1
  by_cases hfix : rowOfList (leftRow st.row.toList) = st.row
  · have hl : leftRow st.row.toList = st.row.toList := by
      have := congrArg Row.toList hfix
      rwa [toList_rowOfList _ (leftRow_length _ (by rfl))] at this
    obtain ⟨ht, hp⟩ := leftRow_fixed _ hl
    unfold leftRow at hfix
    unfold leftTiles at ht
    simp [hfix, ht, hp, rowOfList_toList]
  · unfold leftRow at hfix
    simp only [ne_eq, hfix, not_false_eq_true, decide_True]
    by_cases ht : mergedTilesW (dropZeros st.row.toList) = []
    · rw [mergePairsW_of_no_tiles _ ht] at hfix
      simp [hfix, ht]
    · simp [ht]

/-! ## The whole board -/

theorem addTiles_append (sc : Int) (l1 l2 : List Int) :
    addTiles sc (l1 ++ l2) = addTiles (addTiles sc l1) l2 := by
  simp [addTiles, List.foldl_append]

theorem MoveLeft_unfold (s : GameState) :
    MoveLeft s = moveLeftStep (moveLeftStep (moveLeftStep (moveLeftStep (s, false) 0) 1) 2) 3 :=
  rfl

theorem MoveLeft_eq (s : GameState) :
    MoveLeft s =
      ({ board := leftBoard s.board,
         score := addTiles s.score (boardTiles s.board),
         gameOver := s.gameOver,
         won := s.won || (boardTiles s.board).any (fun t => decide (t = 2048)),
         checksum := s.checksum },
       decide (leftBoard s.board ≠ s.board)) := by
  rcases s with ⟨⟨r0, r1, r2, r3⟩, sc, go, w, ck⟩
  simp only [MoveLeft_unfold, moveLeftStep, moveLeftRow_eq, Board.row, Board.setRow, leftBoard,
    boardTiles, addTiles_append, List.any_append, Bool.or_assoc, Bool.false_or]
  simp only [Prod.mk.injEq, true_and, ne_eq, Board.mk.injEq]
  by_cases h0 : rowOfList (leftRow r0.toList) = r0 <;>
  by_cases h1 : rowOfList (leftRow r1.toList) = r1 <;>
  by_cases h2 : rowOfList (leftRow r2.toList) = r2 <;>
  by_cases h3 : rowOfList (leftRow r3.toList) = r3 <;> simp [h0, h1, h2, h3]

/-! ## Absence of overflow -/

theorem wrap32_of_inInt32 (x : Int) (h : InInt32 x) : wrap32 x = x := by
  unfold InInt32 at h
  unfold wrap32
  omega

theorem mergePairsW_eq (l : List Int) (h : ∀ x ∈ l, -1073741824 ≤ x ∧ x < 1073741824) :
    mergePairsW l = mergePairs l := by
  induction l using mergePairsW.induct with
  | case1 b t ih =>
    have hb := h b (by simp)
    have ht : ∀ x ∈ t, -1073741824 ≤ x ∧ x < 1073741824 := fun x hx => h x (by simp [hx])
    have hw : wrap32 (b * 2) = 2 * b := by
      rw [wrap32_of_inInt32 _ (by unfold InInt32; omega)]; ring
    simp [mergePairsW, mergePairs, ih ht, hw]
  | case2 a b t hab ih =>
    have ht : ∀ x ∈ b :: t, -1073741824 ≤ x ∧ x < 1073741824 :=
      fun x hx => h x (List.mem_cons_of_mem _ hx)
    simp [mergePairsW, mergePairs, hab, ih ht]
  | case3 l hl =>
    match l with
    | [] => simp [mergePairsW, mergePairs]
    | [a] => simp [mergePairsW, mergePairs]
    | a :: b :: t => exact absurd rfl (hl a b t)

theorem mergedTilesW_eq (l : List Int) (h : ∀ x ∈ l, -1073741824 ≤ x ∧ x < 1073741824) :
    mergedTilesW l = mergedTiles l := by
  induction l using mergePairsW.induct with
  | case1 b t ih =>
    have hb := h b (by simp)
    have ht : ∀ x ∈ t, -1073741824 ≤ x ∧ x < 1073741824 := fun x hx => h x (by simp [hx])
    have hw : wrap32 (b * 2) = 2 * b := by
      rw [wrap32_of_inInt32 _ (by unfold InInt32; omega)]; ring
    simp [mergedTilesW, mergedTiles, ih ht, hw]
  | case2 a b t hab ih =>
    have ht : ∀ x ∈ b :: t, -1073741824 ≤ x ∧ x < 1073741824 :=
      fun x hx => h x (List.mem_cons_of_mem _ hx)
    simp [mergedTilesW, mergedTiles, hab, ih ht]
  | case3 l hl =>
    match l with
    | [] => simp [mergedTilesW, mergedTiles]
    | [a] => simp [mergedTilesW, mergedTiles]
    | a :: b :: t => exact absurd rfl (hl a b t)

theorem dropZeros_small (l : List Int) (h : ∀ x ∈ l, -1073741824 ≤ x ∧ x < 1073741824) :
    ∀ x ∈ dropZeros l, -1073741824 ≤ x ∧ x < 1073741824 :=
  fun x hx => h x (List.mem_filter.mp hx).1

theorem leftRow_eq_specRow (l : List Int) (h : ∀ x ∈ l, -1073741824 ≤ x ∧ x < 1073741824) :
    leftRow l = specRow l := by
  unfold leftRow specRow
  rw [mergePairsW_eq _ (dropZeros_small l h)]

theorem leftTiles_eq (l : List Int) (h : ∀ x ∈ l, -1073741824 ≤ x ∧ x < 1073741824) :
    leftTiles l = mergedTiles (dropZeros l) := by
  unfold leftTiles
  rw [mergedTilesW_eq _ (dropZeros_small l h)]

theorem addTiles_eq_sum (tiles : List Int) (sc : Int)
    (h : sc.natAbs + (tiles.map Int.natAbs).sum < 2147483648) :
    addTiles sc tiles = sc + tiles.sum := by
  induction tiles generalizing sc with
  | nil => simp [addTiles]
  | cons t ts ih =>
    simp only [List.map_cons, List.sum_cons] at h
    have hw : wrap32 (sc + t) = sc + t := by
      apply wrap32_of_inInt32
      unfold InInt32
      omega
    have hstep : addTiles sc (t :: ts) = addTiles (wrap32 (sc + t)) ts := rfl
    rw [hstep, hw, ih (sc + t) (by omega)]
    simp [List.sum_cons]; ring

theorem boardTiles_eq (b : Board) (h : SmallCells b) : boardTiles b = specTiles b := by
  unfold SmallCells Board.cells at h
  unfold boardTiles specTiles
  rw [leftTiles_eq _ (fun x hx => h x (by simp [hx])), leftTiles_eq _ (fun x hx => h x (by simp [hx])),
    leftTiles_eq _ (fun x hx => h x (by simp [hx])), leftTiles_eq _ (fun x hx => h x (by simp [hx]))]

/-! ## C1: the left move on rows and score -/

/-- C1 (amended): on every board whose cells can be doubled without leaving the
range of an `int`, and every score that the merged tiles cannot push out of that
range, `MoveLeft` turns each row into `specRow` of it (drop the zeros, merge equal
neighbours from the left without re-merging, pad with zeros) and adds to the
score exactly the sum of the tiles produced by merges. -/
theorem MoveLeft_rows_and_score (s : GameState) (hcells : SmallCells s.board)
    (hscore : s.score.natAbs + ((specTiles s.board).map Int.natAbs).sum < 2147483648) :
    (∀ i, i < 4 → ((MoveLeft s).1.board.row i).toList = specRow (s.board.row i).toList) ∧
    (MoveLeft s).1.score =
      s.score + (specGain s.board.r0.toList + specGain s.board.r1.toList +
        specGain s.board.r2.toList + specGain s.board.r3.toList) := by
  have hc := hcells
  unfold SmallCells Board.cells at hc
  rw [MoveLeft_eq]
  refine ⟨?_, ?_⟩
  · intro i hi
    have hrow : ∀ r : Row, (∀ x ∈ r.toList, -1073741824 ≤ x ∧ x < 1073741824) →
        (rowOfList (leftRow r.toList)).toList = specRow r.toList := by
      intro r hr
      rw [toList_rowOfList _ (leftRow_length _ (by rfl)), leftRow_eq_specRow _ hr]
    match i, hi with
    | 0, _ => exact hrow _ (fun x hx => hc x (by simp [hx]))
    | 1, _ => exact hrow _ (fun x hx => hc x (by simp [hx]))
    | 2, _ => exact hrow _ (fun x hx => hc x (by simp [hx]))
    | 3, _ => exact hrow _ (fun x hx => hc x (by simp [hx]))
  · show addTiles s.score (boardTiles s.board) = _
    rw [boardTiles_eq _ hcells, addTiles_eq_sum _ _ hscore]
    simp [specTiles, specGain, List.sum_append]
    ring

/-- Witness of C1 on the example rows `[2,2,2,2]`, `[2,0,2,0]`, `[2,2,4,0]`, `[2,0,0,0]`. -/
theorem MoveLeft_rows_and_score_witness :
    SmallCells exampleState.board ∧
    exampleState.score.natAbs + ((specTiles exampleState.board).map Int.natAbs).sum < 2147483648 ∧
    ((∀ i, i < 4 → ((MoveLeft exampleState).1.board.row i).toList =
        specRow (exampleState.board.row i).toList) ∧
    (MoveLeft exampleState).1.score =
      exampleState.score + (specGain exampleState.board.r0.toList +
        specGain exampleState.board.r1.toList +
        specGain exampleState.board.r2.toList + specGain exampleState.board.r3.toList)) :=
  ⟨by decide, by decide, MoveLeft_rows_and_score exampleState (by decide) (by decide)⟩

/-- Counterexample to C1 as stated, on two states the validator accepts: two
tiles of 2^30 merge into a cell that cannot hold 2^31 (it holds -2^31), and a
score of 2^31 - 1 cannot grow by 4 (it becomes -2^31 + 3). -/
theorem MoveLeft_overflow_counterexample :
    (bigTileState.InRange ∧ ValidateGameState bigTileState = true ∧
      ((MoveLeft bigTileState).1.board.row 0).toList = [-2147483648, 0, 0, 0] ∧
      specRow (bigTileState.board.row 0).toList = [2147483648, 0, 0, 0] ∧
      ((MoveLeft bigTileState).1.board.row 0).toList ≠
        specRow (bigTileState.board.row 0).toList) ∧
    (bigScoreState.InRange ∧ ValidateGameState bigScoreState = true ∧
      (MoveLeft bigScoreState).1.score = -2147483645 ∧
      (MoveLeft bigScoreState).1.score ≠
        bigScoreState.score + (specGain bigScoreState.board.r0.toList +
          specGain bigScoreState.board.r1.toList + specGain bigScoreState.board.r2.toList +
          specGain bigScoreState.board.r3.toList)) := by
  decide

/-! ## ReverseRows and Transpose -/

theorem reverseRowsBoard_eq (b : Board) :
    reverseRowsBoard b =
      ⟨⟨b.r0.c3, b.r0.c2, b.r0.c1, b.r0.c0⟩, ⟨b.r1.c3, b.r1.c2, b.r1.c1, b.r1.c0⟩,
       ⟨b.r2.c3, b.r2.c2, b.r2.c1, b.r2.c0⟩, ⟨b.r3.c3, b.r3.c2, b.r3.c1, b.r3.c0⟩⟩ := by
  rcases b with ⟨⟨a0, a1, a2, a3⟩, ⟨b0, b1, b2, b3⟩, ⟨c0, c1, c2, c3⟩, ⟨d0, d1, d2, d3⟩⟩
  rfl

theorem transposeBoard_eq (b : Board) :
    transposeBoard b =
      ⟨⟨b.r0.c0, b.r1.c0, b.r2.c0, b.r3.c0⟩, ⟨b.r0.c1, b.r1.c1, b.r2.c1, b.r3.c1⟩,
       ⟨b.r0.c2, b.r1.c2, b.r2.c2, b.r3.c2⟩, ⟨b.r0.c3, b.r1.c3, b.r2.c3, b.r3.c3⟩⟩ := by
  rcases b with ⟨⟨a0, a1, a2, a3⟩, ⟨b0, b1, b2, b3⟩, ⟨c0, c1, c2, c3⟩, ⟨d0, d1, d2, d3⟩⟩
  rfl

theorem reverseRowsBoard_involutive (b : Board) : reverseRowsBoard (reverseRowsBoard b) = b := by
  rw [reverseRowsBoard_eq, reverseRowsBoard_eq]

theorem transposeBoard_involutive (b : Board) : transposeBoard (transposeBoard b) = b := by
  rw [transposeBoard_eq, transposeBoard_eq]

/-! ## C2: the returned flag -/

theorem leftBoard_fixed_tiles (b : Board) (h : leftBoard b = b) : boardTiles b = [] := by
  rcases b with ⟨r0, r1, r2, r3⟩
  simp only [leftBoard, Board.mk.injEq] at h
  obtain ⟨h0, h1, h2, h3⟩ := h
  have key : ∀ r : Row, rowOfList (leftRow r.toList) = r → leftTiles r.toList = [] := by
    intro r hr
    have hl : leftRow r.toList = r.toList := by
      have := congrArg Row.toList hr
      rwa [toList_rowOfList _ (leftRow_length _ (by rfl))] at this
    exact (leftRow_fixed _ hl).1
  simp [boardTiles, key r0 h0, key r1 h1, key r2 h2, key r3 h3]

theorem MoveLeft_moved_false_iff (s : GameState) : (MoveLeft s).2 = false ↔ (MoveLeft s).1 = s := by
  rw [MoveLeft_eq]
  constructor
  · intro h
    have hb : leftBoard s.board = s.board := by simpa using h
    have ht := leftBoard_fixed_tiles _ hb
    rcases s with ⟨b, sc, go, w, ck⟩
    simp only at hb ht
    simp [hb, ht, addTiles]
  · intro h
    have hb : leftBoard s.board = s.board := congrArg GameState.board h
    simp [hb]

theorem MoveLeft_moved_true_iff (s : GameState) :
    (MoveLeft s).2 = true ↔ (MoveLeft s).1.board ≠ s.board := by
  rw [MoveLeft_eq]
  simp

/-- A move obtained from `MoveLeft` by changing the orientation of the board with `t`
and changing it back with `u`. -/
theorem conjugate_moved (t u : Board → Board) (hut : ∀ b, u (t b) = b) (htu : ∀ b, t (u b) = b)
    (s : GameState) :
    ((MoveLeft { s with board := t s.board }).2 = false ↔
      { (MoveLeft { s with board := t s.board }).1 with
        board := u (MoveLeft { s with board := t s.board }).1.board } = s) ∧
    ((MoveLeft { s with board := t s.board }).2 = true ↔
      u (MoveLeft { s with board := t s.board }).1.board ≠ s.board) := by
  have hback : u (leftBoard (t s.board)) = s.board ↔ leftBoard (t s.board) = t s.board := by
    constructor
    · intro h
      have := congrArg t h
      rwa [htu] at this
    · intro h
      rw [h, hut]
  rw [MoveLeft_eq]
  rcases s with ⟨b, sc, go, w, ck⟩
  simp only at hback
  constructor
  · simp only [ne_eq, decide_not, Bool.not_eq_false', decide_eq_true_eq, GameState.mk.injEq,
      and_true, true_and]
    constructor
    · intro h
      have ht := leftBoard_fixed_tiles _ h
      simp [h, ht, addTiles, hut]
    · intro h
      exact hback.mp h.1
  · simp only [ne_eq, decide_not, Bool.not_eq_true', decide_eq_false_iff_not]
    rw [hback]

/-- C2: each of MoveLeft, MoveRight, MoveUp and MoveDown returns `moved = false`
exactly when the state after the call is the state before it, and `moved = true`
exactly when the board has changed; a row `[2,0,0,0]` on an otherwise empty board
is left unchanged by MoveLeft with `moved = false`. -/
theorem moved_iff_changed (s : GameState) :
    (((MoveLeft s).2 = false ↔ (MoveLeft s).1 = s) ∧
      ((MoveLeft s).2 = true ↔ (MoveLeft s).1.board ≠ s.board)) ∧
    (((MoveRight s).2 = false ↔ (MoveRight s).1 = s) ∧
      ((MoveRight s).2 = true ↔ (MoveRight s).1.board ≠ s.board)) ∧
    (((MoveUp s).2 = false ↔ (MoveUp s).1 = s) ∧
      ((MoveUp s).2 = true ↔ (MoveUp s).1.board ≠ s.board)) ∧
    (((MoveDown s).2 = false ↔ (MoveDown s).1 = s) ∧
      ((MoveDown s).2 = true ↔ (MoveDown s).1.board ≠ s.board)) ∧
    MoveLeft ⟨⟨⟨2, 0, 0, 0⟩, ⟨0, 0, 0, 0⟩, ⟨0, 0, 0, 0⟩, ⟨0, 0, 0, 0⟩⟩, 0, false, false, 0⟩ =
      (⟨⟨⟨2, 0, 0, 0⟩, ⟨0, 0, 0, 0⟩, ⟨0, 0, 0, 0⟩, ⟨0, 0, 0, 0⟩⟩, 0, false, false, 0⟩, false) := by
  refine ⟨⟨MoveLeft_moved_false_iff s, MoveLeft_moved_true_iff s⟩, ?_, ?_, ?_, by decide⟩
  · simp only [MoveRight, ReverseRows]
    exact conjugate_moved reverseRowsBoard reverseRowsBoard reverseRowsBoard_involutive
      reverseRowsBoard_involutive s
  · simp only [MoveUp, Transpose]
    exact conjugate_moved transposeBoard transposeBoard transposeBoard_involutive
      transposeBoard_involutive s
  · simp only [MoveDown, Transpose, ReverseRows]
    exact conjugate_moved (fun b => reverseRowsBoard (transposeBoard b))
      (fun b => transposeBoard (reverseRowsBoard b))
      (fun b => by simp only [reverseRowsBoard_involutive, transposeBoard_involutive])
      (fun b => by simp only [reverseRowsBoard_involutive, transposeBoard_involutive]) s

/-! ## C3: the derived moves -/

theorem MoveLeft_row (s : GameState) (i : Nat) (hi : i < 4) :
    ((MoveLeft s).1.board.row i).toList = leftRow (s.board.row i).toList := by
  rw [MoveLeft_eq]
  match i, hi with
  | 0, _ => exact toList_rowOfList _ (leftRow_length _ (by rfl))
  | 1, _ => exact toList_rowOfList _ (leftRow_length _ (by rfl))
  | 2, _ => exact toList_rowOfList _ (leftRow_length _ (by rfl))
  | 3, _ => exact toList_rowOfList _ (leftRow_length _ (by rfl))

theorem reverseRows_row (b : Board) (i : Nat) (hi : i < 4) :
    ((reverseRowsBoard b).row i).toList = (b.row i).toList.reverse := by
  rw [reverseRowsBoard_eq]
  match i, hi with
  | 0, _ => rfl
  | 1, _ => rfl
  | 2, _ => rfl
  | 3, _ => rfl

theorem transpose_row (b : Board) (c : Nat) (hc : c < 4) :
    ((transposeBoard b).row c).toList = b.col c := by
  rw [transposeBoard_eq]
  match c, hc with
  | 0, _ => rfl
  | 1, _ => rfl
  | 2, _ => rfl
  | 3, _ => rfl

theorem transpose_col (b : Board) (c : Nat) (hc : c < 4) :
    (transposeBoard b).col c = (b.row c).toList := by
  rw [transposeBoard_eq]
  match c, hc with
  | 0, _ => rfl
  | 1, _ => rfl
  | 2, _ => rfl
  | 3, _ => rfl

theorem ReverseRows_score (s : GameState) : (ReverseRows s).score = s.score := by
  unfold ReverseRows
  rfl

theorem Transpose_score (s : GameState) : (Transpose s).score = s.score := by
  unfold Transpose
  rfl

/-- C3: with `leftRow` the row transform of MoveLeft (first part), row `i` of the
MoveRight result is the reverse of `leftRow` of the reversed row `i`, column `c` of
the MoveUp result is `leftRow` of column `c`, and column `c` of the MoveDown result
read bottom to top is `leftRow` of column `c` read bottom to top; ReverseRows and
Transpose each undo themselves and leave the score alone, and the score and the
returned flag of a derived move are those of the MoveLeft call it wraps. -/
theorem derived_moves (s : GameState) :
    (∀ i, i < 4 → ((MoveLeft s).1.board.row i).toList = leftRow (s.board.row i).toList) ∧
    (∀ i, i < 4 → ((MoveRight s).1.board.row i).toList =
      (leftRow (s.board.row i).toList.reverse).reverse) ∧
    (∀ c, c < 4 → (MoveUp s).1.board.col c = leftRow (s.board.col c)) ∧
    (∀ c, c < 4 → ((MoveDown s).1.board.col c).reverse = leftRow (s.board.col c).reverse) ∧
    (ReverseRows (ReverseRows s) = s ∧ Transpose (Transpose s) = s) ∧
    ((ReverseRows s).score = s.score ∧ (Transpose s).score = s.score) ∧
    ((MoveRight s).1.score = (MoveLeft (ReverseRows s)).1.score ∧
      (MoveRight s).2 = (MoveLeft (ReverseRows s)).2) ∧
    ((MoveUp s).1.score = (MoveLeft (Transpose s)).1.score ∧
      (MoveUp s).2 = (MoveLeft (Transpose s)).2) ∧
    ((MoveDown s).1.score = (MoveLeft (ReverseRows (Transpose s))).1.score ∧
      (MoveDown s).2 = (MoveLeft (ReverseRows (Transpose s))).2) := by
  refine ⟨MoveLeft_row s, ?_, ?_, ?_, ⟨?_, ?_⟩, ⟨?_, ?_⟩, ?_, ?_, ?_⟩
  · intro i hi
    simp only [MoveRight, ReverseRows]
    rw [reverseRows_row _ i hi, MoveLeft_row _ i hi]
    simp only [reverseRows_row _ i hi]
  · intro c hc
    simp only [MoveUp, Transpose]
    rw [transpose_col _ c hc, MoveLeft_row _ c hc]
    simp only [transpose_row _ c hc]
  · intro c hc
    simp only [MoveDown, Transpose, ReverseRows]
    rw [transpose_col _ c hc, reverseRows_row _ c hc, List.reverse_reverse, MoveLeft_row _ c hc]
    simp only [reverseRows_row _ c hc, transpose_row _ c hc]
  · simp only [ReverseRows, reverseRowsBoard_involutive]
  · simp only [Transpose, transposeBoard_involutive]
  · exact ReverseRows_score s
  · exact Transpose_score s
  · simp only [MoveRight, ReverseRows_score, and_self]
  · simp only [MoveUp, Transpose_score, and_self]
  · simp only [MoveDown, Transpose_score, ReverseRows_score, and_self]

/-! ## C4: MoveLeft twice -/

theorem mergePairsW_ne_zero (l : List Int)
    (h : ∀ x ∈ l, x ≠ 0 ∧ -1073741824 ≤ x ∧ x < 1073741824) : ∀ x ∈ mergePairsW l, x ≠ 0 := by
  induction l using mergePairsW.induct with
  | case1 b t ih =>
    have hb := h b (by simp)
    have ht : ∀ x ∈ t, x ≠ 0 ∧ -1073741824 ≤ x ∧ x < 1073741824 :=
      fun x hx => h x (by simp [hx])
    have hw : wrap32 (b * 2) ≠ 0 := by
      rw [wrap32_of_inInt32 _ (by unfold InInt32; omega)]; omega
    intro x hx
    simp only [mergePairsW, if_true, List.mem_cons] at hx
    rcases hx with rfl | hx
    · exact hw
    · exact ih ht x hx
  | case2 a b t hab ih =>
    have ht : ∀ x ∈ b :: t, x ≠ 0 ∧ -1073741824 ≤ x ∧ x < 1073741824 :=
      fun x hx => h x (List.mem_cons_of_mem _ hx)
    intro x hx
    simp only [mergePairsW, hab, if_false, List.mem_cons] at hx
    rcases hx with rfl | hx
    · exact (h x (by simp)).1
    · exact ih ht x (by simpa using hx)
  | case3 l hl =>
    match l with
    | [] => simp [mergePairsW]
    | [a] => simpa [mergePairsW] using (h a (by simp)).1
    | a :: b :: t => exact absurd rfl (hl a b t)

theorem second_fixed_iff (m : List Int) (hm : ∀ x ∈ m, x ≠ 0) (hlen : m.length ≤ 4) :
    rowOfList (leftRow (padRight m)) = rowOfList (padRight m) ↔
      (rowOfList (padRight m)).noEqualPair := by
  have h3 : ∀ p : Nat → Prop, (∀ j, j < 3 → p j) ↔ p 0 ∧ p 1 ∧ p 2 := by
    intro p
    constructor
    · intro h; exact ⟨h 0 (by omega), h 1 (by omega), h 2 (by omega)⟩
    · rintro ⟨h0, h1, h2⟩ j hj
      match j, hj with
      | 0, _ => exact h0
      | 1, _ => exact h1
      | 2, _ => exact h2
  unfold Row.noEqualPair
  rw [h3]
  match m, hm, hlen with
  | [], _, _ => simp [leftRow, padRight, dropZeros, mergePairsW, rowOfList, Row.get]
  | [a], h, _ =>
    simp at h
    simp [leftRow, padRight, dropZeros, mergePairsW, rowOfList, Row.get, h]
  | [a, b], h, _ =>
    simp at h
    by_cases hab : a = b <;>
    simp [leftRow, padRight, dropZeros, mergePairsW, rowOfList, Row.get, h, hab]
    all_goals simp_all
    all_goals (intros; omega)
  | [a, b, c], h, _ =>
    simp at h
    by_cases hab : a = b <;> by_cases hbc : b = c <;>
    simp [leftRow, padRight, dropZeros, mergePairsW, rowOfList, Row.get, h, hab, hbc]
    all_goals simp_all
    all_goals (intros; omega)
  | [a, b, c, d], h, _ =>
    simp at h
    by_cases hab : a = b <;> by_cases hbc : b = c <;> by_cases hcd : c = d <;>
    simp [leftRow, padRight, dropZeros, mergePairsW, rowOfList, Row.get, h, hab, hbc, hcd]
    all_goals simp_all
    all_goals (intros; omega)
  | _ :: _ :: _ :: _ :: _ :: _, _, h => simp at h

theorem row_twice (r : Row) (hr : ∀ x ∈ r.toList, -1073741824 ≤ x ∧ x < 1073741824) :
    rowOfList (leftRow (rowOfList (leftRow r.toList)).toList) = rowOfList (leftRow r.toList) ↔
      (rowOfList (leftRow r.toList)).noEqualPair := by
  rw [toList_rowOfList _ (leftRow_length _ (by rfl))]
  have hm : ∀ x ∈ mergePairsW (dropZeros r.toList), x ≠ 0 :=
    mergePairsW_ne_zero _ (fun x hx => ⟨dropZeros_ne_zero _ x hx, dropZeros_small _ hr x hx⟩)
  have hlen : (mergePairsW (dropZeros r.toList)).length ≤ 4 := by
    have h1 := merge_length (dropZeros r.toList)
    have h2 := dropZeros_length_le r.toList
    have h3 : r.toList.length = 4 := rfl
    omega
  exact second_fixed_iff _ hm hlen

theorem forall_lt_four (p : Nat → Prop) : (∀ i, i < 4 → p i) ↔ p 0 ∧ p 1 ∧ p 2 ∧ p 3 := by
  constructor
  · intro h; exact ⟨h 0 (by omega), h 1 (by omega), h 2 (by omega), h 3 (by omega)⟩
  · rintro ⟨h0, h1, h2, h3⟩ i hi
    match i, hi with
    | 0, _ => exact h0
    | 1, _ => exact h1
    | 2, _ => exact h2
    | 3, _ => exact h3

/-- C4 (amended): on every board whose cells can be doubled without overflow, a
second MoveLeft right after the first reports `moved = false` and leaves the board
as the first left it if and only if the first left no row with two equal
neighbouring nonzero tiles. -/
theorem MoveLeft_twice (s : GameState) (hcells : SmallCells s.board) :
    ((MoveLeft (MoveLeft s).1).2 = false ∧
      (MoveLeft (MoveLeft s).1).1.board = (MoveLeft s).1.board) ↔
    ∀ i, i < 4 → ∀ j, j < 3 →
      (MoveLeft s).1.board.get i j = 0 ∨
      (MoveLeft s).1.board.get i j ≠ (MoveLeft s).1.board.get i (j + 1) := by
  have hc := hcells
  unfold SmallCells Board.cells at hc
  have hrows : (∀ i, i < 4 → ∀ j, j < 3 →
      (MoveLeft s).1.board.get i j = 0 ∨
      (MoveLeft s).1.board.get i j ≠ (MoveLeft s).1.board.get i (j + 1)) ↔
      ∀ i, i < 4 → ((MoveLeft s).1.board.row i).noEqualPair := Iff.rfl
  rw [hrows, forall_lt_four, MoveLeft_eq (MoveLeft s).1, MoveLeft_eq s]
  simp only [ne_eq, decide_not, Bool.not_eq_false', decide_eq_true_eq, and_self]
  rcases s with ⟨⟨r0, r1, r2, r3⟩, sc, go, w, ck⟩
  simp only [leftBoard, Board.mk.injEq, Board.row]
  simp only [List.mem_append] at hc
  rw [row_twice r0 (fun x hx => hc x (by simp [hx])), row_twice r1 (fun x hx => hc x (by simp [hx])),
    row_twice r2 (fun x hx => hc x (by simp [hx])), row_twice r3 (fun x hx => hc x (by simp [hx]))]

/-- Witness of C4 (amended): after `[2,0,2,0]` became `[4,0,0,0]` nothing moves again. -/
theorem MoveLeft_twice_witness :
    SmallCells quietState.board ∧
    ((MoveLeft (MoveLeft quietState).1).2 = false ∧
      (MoveLeft (MoveLeft quietState).1).1.board = (MoveLeft quietState).1.board) :=
  ⟨by decide, (MoveLeft_twice quietState (by decide)).mpr (by decide)⟩

/-- Counterexample to C4 as stated: `[2,2,4,0]` becomes `[4,4,0,0]`, which the second
MoveLeft merges into `[8,0,0,0]` with `moved = true`. -/
theorem MoveLeft_twice_counterexample :
    (MoveLeft (MoveLeft mergeAgainState).1).2 = true ∧
    (MoveLeft (MoveLeft mergeAgainState).1).1.board ≠ (MoveLeft mergeAgainState).1.board := by
  decide

/-! ## C5: CanMove and CheckGameOver -/

theorem CanMove_eq_true_iff (s : GameState) :
    CanMove s = true ↔ ¬ s.board.full ∨ s.board.hasEqualNeighbours := by
  unfold CanMove Board.full Board.hasEqualNeighbours
  simp only [BOARD_SIZE, List.any_eq_true, List.mem_range, beq_iff_eq, Bool.or_eq_true,
    Bool.and_eq_true, decide_eq_true_eq, Bool.if_true_left, Bool.if_false_right, Bool.and_true,
    Nat.add_one_sub_one, Nat.reduceSub]
  constructor
  · rintro (⟨i, hi, j, hj, h⟩ | ⟨i, hi, j, hj, ⟨hj3, h⟩ | ⟨hi3, h⟩⟩)
    · left
      intro hfull
      exact hfull i hi j hj h
    · right; left; exact ⟨i, hi, j, hj3, h⟩
    · right; right; exact ⟨i, hi3, j, hj, h⟩
  · rintro (h | ⟨i, hi, j, hj, h⟩ | ⟨i, hi, j, hj, h⟩)
    · left
      by_contra hne
      apply h
      intro i hi j hj h0
      exact hne ⟨i, hi, j, hj, h0⟩
    · right; exact ⟨i, hi, j, by omega, Or.inl ⟨hj, h⟩⟩
    · right; exact ⟨i, by omega, j, hj, Or.inr ⟨hi, h⟩⟩

/-- C5: CanMove returns false exactly on a full board without two equal
horizontally or vertically adjacent cells; so CheckGameOver, on a state whose
`gameOver` is false, sets it on such a board and leaves it false on a full board
with an equal adjacent pair and on any board with an empty cell. -/
theorem CanMove_false_iff (s : GameState) :
    (CanMove s = false ↔ s.board.full ∧ ¬ s.board.hasEqualNeighbours) ∧
    (s.gameOver = false → s.board.full → ¬ s.board.hasEqualNeighbours →
      (CheckGameOver s).gameOver = true) ∧
    (s.gameOver = false → s.board.full → s.board.hasEqualNeighbours →
      (CheckGameOver s).gameOver = false) ∧
    (s.gameOver = false → ¬ s.board.full → (CheckGameOver s).gameOver = false) := by
  have hiff : CanMove s = false ↔ s.board.full ∧ ¬ s.board.hasEqualNeighbours := by
    rw [← Bool.not_eq_true, CanMove_eq_true_iff]
    tauto
  refine ⟨hiff, ?_, ?_, ?_⟩
  · intro _ hf hn
    have h := hiff.mpr ⟨hf, hn⟩
    simp [CheckGameOver, h]
  · intro hg hf hp
    have h : CanMove s = true := (CanMove_eq_true_iff s).mpr (Or.inr hp)
    simp [CheckGameOver, h, hg]
  · intro hg hf
    have h : CanMove s = true := (CanMove_eq_true_iff s).mpr (Or.inl hf)
    simp [CheckGameOver, h, hg]

/-- Witness of C5 on a full checkered board. -/
theorem CanMove_false_iff_witness :
    stuckState.board.full ∧ ¬ stuckState.board.hasEqualNeighbours ∧
    (CheckGameOver stuckState).gameOver = true :=
  ⟨by decide, by decide, (CanMove_false_iff stuckState).2.1 rfl (by decide) (by decide)⟩


/-! ## C6: the won flag -/

theorem MoveLeft_won (s : GameState) :
    (MoveLeft s).1.won = (s.won || (boardTiles s.board).any (fun t => decide (t = 2048))) := by
  rw [MoveLeft_eq]

theorem ReverseRows_won (s : GameState) : (ReverseRows s).won = s.won := by
  unfold ReverseRows
  rfl

theorem Transpose_won (s : GameState) : (Transpose s).won = s.won := by
  unfold Transpose
  rfl

/-- C6: after each of the four moves `won` is (`won` before) or (one of the tiles
produced by the merges of the wrapped MoveLeft call is exactly 2048), where the
tiles produced by the merges, `boardTiles`, are the values MoveLeft adds to the
score; in particular a move never turns `won` from true to false. -/
theorem won_after_move (s : GameState) :
    ((MoveLeft s).1.score = addTiles s.score (boardTiles s.board) ∧
      (MoveLeft s).1.won =
        (s.won || (boardTiles s.board).any (fun t => decide (t = 2048)))) ∧
    ((MoveRight s).1.won =
      (s.won || (boardTiles (ReverseRows s).board).any (fun t => decide (t = 2048)))) ∧
    ((MoveUp s).1.won =
      (s.won || (boardTiles (Transpose s).board).any (fun t => decide (t = 2048)))) ∧
    ((MoveDown s).1.won =
      (s.won ||
        (boardTiles (ReverseRows (Transpose s)).board).any (fun t => decide (t = 2048)))) ∧
    (s.won = true → (MoveLeft s).1.won = true ∧ (MoveRight s).1.won = true ∧
      (MoveUp s).1.won = true ∧ (MoveDown s).1.won = true) := by
  have hl := MoveLeft_won s
  have hsc : (MoveLeft s).1.score = addTiles s.score (boardTiles s.board) := by
    rw [MoveLeft_eq]
  have hr : (MoveRight s).1.won =
      (s.won || (boardTiles (ReverseRows s).board).any (fun t => decide (t = 2048))) := by
    simp only [MoveRight, ReverseRows_won, MoveLeft_won]
  have hu : (MoveUp s).1.won =
      (s.won || (boardTiles (Transpose s).board).any (fun t => decide (t = 2048))) := by
    simp only [MoveUp, Transpose_won, MoveLeft_won]
  have hd : (MoveDown s).1.won =
      (s.won ||
        (boardTiles (ReverseRows (Transpose s)).board).any (fun t => decide (t = 2048))) := by
    simp only [MoveDown, Transpose_won, ReverseRows_won, MoveLeft_won]
  refine ⟨⟨hsc, hl⟩, hr, hu, hd, ?_⟩
  intro hw
  rw [hl, hr, hu, hd, hw]
  simp

/-- Witness of C6: merging two 1024 tiles sets `won`, and later moves keep it. -/
theorem won_after_move_witness :
    (MoveLeft winningState).1.won = true ∧ (MoveLeft (MoveLeft winningState).1).1.won = true ∧
    (MoveUp { quietState with won := true }).1.won = true := by
  refine ⟨?_, ?_, ?_⟩
  · rw [(won_after_move winningState).1.2]; decide
  · exact ((won_after_move (MoveLeft winningState).1).2.2.2.2 (by decide)).1
  · exact ((won_after_move { quietState with won := true }).2.2.2.2 rfl).2.2.1

/-! ## The checksum as a rolling hash -/

theorem checksumStep_eq (data : List Nat) (c i : Nat) :
    checksumStep data c i = (c * 33 + data.getD i 0) % 4294967296 := by
  unfold checksumStep u32
  rw [Nat.shiftLeft_eq]
  omega

theorem checksumLoop_eq (data : List Nat) (n : Nat) (h : n ≤ data.length) :
    checksumLoop data n = rollingHash (data.take n) := by
  unfold checksumLoop rollingHash
  induction n with
  | zero => simp
  | succ k ih =>
    have hk : k < data.length := by omega
    rw [List.range_succ, List.foldl_append, ih (by omega), List.take_succ, List.foldl_append]
    simp [checksumStep_eq, List.getD_eq_getElem?_getD, List.getElem?_eq_getElem hk]

theorem int32Bytes_length (x : Int) : (int32Bytes x).length = 4 := rfl

theorem uint32Bytes_length (n : Nat) : (uint32Bytes n).length = 4 := rfl

theorem rowBytes_length (r : Row) : r.bytes.length = 16 := rfl

theorem boardBytes_length (b : Board) : b.bytes.length = 64 := rfl

theorem stateBytes_eq (s : GameState) :
    stateBytes s = payloadPrefix s ++ uint32Bytes s.checksum := by
  simp [stateBytes, payloadPrefix, Board.bytes, Row.bytes, Board.cells, Row.toList]

theorem payloadPrefix_length (s : GameState) : (payloadPrefix s).length = 70 := by
  simp [payloadPrefix, Board.cells, Row.toList, int32Bytes_length]

theorem CalculateChecksumOf_append (p c : List Nat) (h : p.length = 70) :
    CalculateChecksumOf (p ++ c) = rollingHash p := by
  unfold CalculateChecksumOf
  have hsz : sizeofGameState - sizeofUInt32 = 70 := rfl
  rw [hsz, checksumLoop_eq _ _ (by simp [h]), List.take_left' h]

theorem CalculateChecksum_eq (s : GameState) :
    CalculateChecksum s = rollingHash (payloadPrefix s) := by
  have h := CalculateChecksumOf_append (payloadPrefix s) (uint32Bytes s.checksum)
    (payloadPrefix_length s)
  rw [← stateBytes_eq] at h
  exact h


/-! ## C10: the checksum -/

/-- C10: CalculateChecksum is the rolling hash `h := (h * 33 + byte) mod 2^32` from
`h = 0` over the 70 bytes of the packed payload that precede the checksum field,
in memory order; it does not depend on the checksum field, and the overload used
when loading returns the same value on the same state. -/
theorem CalculateChecksum_spec (s : GameState) :
    CalculateChecksum s = rollingHash (payloadPrefix s) ∧
    (payloadPrefix s).length = 70 ∧
    (stateBytes s).take 70 = payloadPrefix s ∧
    (∀ c, CalculateChecksum { s with checksum := c } = CalculateChecksum s) ∧
    CalculateChecksumOf (stateBytes s) = CalculateChecksum s := by
  refine ⟨CalculateChecksum_eq s, payloadPrefix_length s, ?_, ?_, rfl⟩
  · rw [stateBytes_eq, List.take_left' (payloadPrefix_length s)]
  · intro c
    rw [CalculateChecksum_eq, CalculateChecksum_eq]
    rfl

/-! ## Bytes and back -/

theorem uint32OfBytes_uint32Bytes (n : Nat) (h : n < 4294967296) :
    uint32OfBytes (uint32Bytes n) = n := by
  simp only [uint32OfBytes, uint32Bytes, List.getD_cons_zero, List.getD_cons_succ]
  omega

theorem int32OfBytes_int32Bytes (x : Int) (h : InInt32 x) : int32OfBytes (int32Bytes x) = x := by
  unfold InInt32 at h
  unfold int32OfBytes int32Bytes
  have hlt : (x % 4294967296).toNat < 4294967296 := by omega
  rw [uint32OfBytes_uint32Bytes _ hlt]
  split <;> omega

theorem take_append_length (l1 l2 : List Nat) (n : Nat) (h : l1.length = n) :
    (l1 ++ l2).take n = l1 := List.take_left' h

theorem drop_append_length (l1 l2 : List Nat) (n : Nat) (h : l1.length = n) :
    (l1 ++ l2).drop n = l2 := List.drop_left' h

theorem rowOfBytes_bytes (r : Row) (h : ∀ x ∈ r.toList, InInt32 x) (rest : List Nat) :
    rowOfBytes (r.bytes ++ rest) = r := by
  rcases r with ⟨a, b, c, d⟩
  simp only [Row.toList, List.mem_cons, List.mem_singleton, List.not_mem_nil, or_false,
    forall_eq_or_imp, forall_eq] at h
  obtain ⟨ha, hb, hc, hd⟩ := h
  have e0 : (Row.bytes ⟨a, b, c, d⟩ ++ rest).take 4 = int32Bytes a := by
    simp only [Row.bytes, List.append_assoc]
    exact take_append_length _ _ 4 rfl
  have e1 : ((Row.bytes ⟨a, b, c, d⟩ ++ rest).drop 4).take 4 = int32Bytes b := by
    simp only [Row.bytes, List.append_assoc]
    rw [drop_append_length (int32Bytes a) _ 4 rfl]
    exact take_append_length _ _ 4 rfl
  have e2 : ((Row.bytes ⟨a, b, c, d⟩ ++ rest).drop 8).take 4 = int32Bytes c := by
    simp only [Row.bytes]
    rw [List.append_assoc, List.append_assoc,
      drop_append_length (int32Bytes a ++ int32Bytes b) _ 8 rfl]
    exact take_append_length _ _ 4 rfl
  have e3 : ((Row.bytes ⟨a, b, c, d⟩ ++ rest).drop 12).take 4 = int32Bytes d := by
    simp only [Row.bytes]
    rw [List.append_assoc,
      drop_append_length (int32Bytes a ++ int32Bytes b ++ int32Bytes c) _ 12 rfl]
    exact take_append_length _ _ 4 rfl
  simp only [rowOfBytes, e0, e1, e2, e3, int32OfBytes_int32Bytes _ ha,
    int32OfBytes_int32Bytes _ hb, int32OfBytes_int32Bytes _ hc, int32OfBytes_int32Bytes _ hd]

theorem boardOfBytes_bytes (b : Board) (h : ∀ x ∈ b.cells, InInt32 x) :
    boardOfBytes b.bytes = b := by
  rcases b with ⟨r0, r1, r2, r3⟩
  simp only [Board.cells, List.mem_append] at h
  have e0 : (Board.bytes ⟨r0, r1, r2, r3⟩).take 16 = r0.bytes := by
    simp only [Board.bytes, List.append_assoc]
    exact take_append_length _ _ 16 (rowBytes_length r0)
  have e1 : ((Board.bytes ⟨r0, r1, r2, r3⟩).drop 16).take 16 = r1.bytes := by
    simp only [Board.bytes, List.append_assoc]
    rw [drop_append_length r0.bytes _ 16 (rowBytes_length r0)]
    exact take_append_length _ _ 16 (rowBytes_length r1)
  have e2 : ((Board.bytes ⟨r0, r1, r2, r3⟩).drop 32).take 16 = r2.bytes := by
    simp only [Board.bytes]
    rw [List.append_assoc, drop_append_length (r0.bytes ++ r1.bytes) _ 32 rfl]
    exact take_append_length _ _ 16 (rowBytes_length r2)
  have e3 : ((Board.bytes ⟨r0, r1, r2, r3⟩).drop 48).take 16 = r3.bytes := by
    simp only [Board.bytes]
    rw [drop_append_length (r0.bytes ++ r1.bytes ++ r2.bytes) _ 48 rfl]
    exact List.take_of_length_le (by rw [rowBytes_length])
  have hr : ∀ r : Row, (∀ x ∈ r.toList, InInt32 x) → rowOfBytes r.bytes = r := by
    intro r hx
    have := rowOfBytes_bytes r hx []
    rwa [List.append_nil] at this
  simp only [boardOfBytes, e0, e1, e2, e3]
  rw [hr r0 (fun x hx => h x (by simp [hx])), hr r1 (fun x hx => h x (by simp [hx])),
    hr r2 (fun x hx => h x (by simp [hx])), hr r3 (fun x hx => h x (by simp [hx]))]

theorem boolByte_ne_zero (b : Bool) : (boolByte b != 0) = b := by
  cases b <;> rfl

theorem stateOfBytes_stateBytes (s : GameState) (h : s.InRange) (hck : s.checksum < 4294967296) :
    stateOfBytes (stateBytes s) = s := by
  rcases s with ⟨b, sc, go, w, ck⟩
  obtain ⟨hb, hs⟩ := h
  simp only at hb hs hck
  have e0 : (stateBytes ⟨b, sc, go, w, ck⟩).take 64 = b.bytes := by
    simp only [stateBytes, List.append_assoc]
    exact take_append_length _ _ 64 (boardBytes_length b)
  have e1 : ((stateBytes ⟨b, sc, go, w, ck⟩).drop 64).take 4 = int32Bytes sc := by
    simp only [stateBytes, List.append_assoc]
    rw [drop_append_length b.bytes _ 64 (boardBytes_length b)]
    exact take_append_length _ _ 4 rfl
  have e2 : (stateBytes ⟨b, sc, go, w, ck⟩).getD 68 0 = boolByte go := by
    simp only [stateBytes, List.append_assoc]
    rw [List.getD_append_right _ _ _ _ (by rw [boardBytes_length]; omega), boardBytes_length]
    rfl
  have e3 : (stateBytes ⟨b, sc, go, w, ck⟩).getD 69 0 = boolByte w := by
    simp only [stateBytes, List.append_assoc]
    rw [List.getD_append_right _ _ _ _ (by rw [boardBytes_length]; omega), boardBytes_length]
    rfl
  have e4 : ((stateBytes ⟨b, sc, go, w, ck⟩).drop 70).take 4 = uint32Bytes ck := by
    simp only [stateBytes]
    rw [drop_append_length (b.bytes ++ int32Bytes sc ++ [boolByte go] ++ [boolByte w]) _ 70
      (by simp [boardBytes_length, int32Bytes_length])]
    exact List.take_of_length_le (by rw [uint32Bytes_length])
  simp only [stateOfBytes, e0, e1, e2, e3, e4, boardOfBytes_bytes b hb,
    int32OfBytes_int32Bytes sc hs, uint32OfBytes_uint32Bytes ck hck, boolByte_ne_zero]

/-! ## The rolling hash detects a changed byte -/

theorem hash_step_injective (h1 h2 b : Nat) (hh1 : h1 < 4294967296) (hh2 : h2 < 4294967296)
    (h : (h1 * 33 + b) % 4294967296 = (h2 * 33 + b) % 4294967296) : h1 = h2 := by
  have h1' : Nat.ModEq 4294967296 (h1 * 33 + b) (h2 * 33 + b) := h
  have h2' : Nat.ModEq 4294967296 (h1 * 33) (h2 * 33) := Nat.ModEq.add_right_cancel' b h1'
  have h3 : Nat.ModEq 4294967296 h1 h2 :=
    Nat.ModEq.cancel_right_of_coprime (by decide) h2'
  have h4 : h1 % 4294967296 = h2 % 4294967296 := h3
  rwa [Nat.mod_eq_of_lt hh1, Nat.mod_eq_of_lt hh2] at h4

theorem hash_fold_injective (l : List Nat) (h1 h2 : Nat) (hh1 : h1 < 4294967296)
    (hh2 : h2 < 4294967296)
    (h : l.foldl (fun h b => (h * 33 + b) % 4294967296) h1 =
      l.foldl (fun h b => (h * 33 + b) % 4294967296) h2) : h1 = h2 := by
  induction l generalizing h1 h2 with
  | nil => simpa using h
  | cons b t ih =>
    simp only [List.foldl_cons] at h
    have := ih _ _ (Nat.mod_lt _ (by decide)) (Nat.mod_lt _ (by decide)) h
    exact hash_step_injective h1 h2 b hh1 hh2 this

theorem rollingHash_lt (l : List Nat) : rollingHash l < 4294967296 := by
  unfold rollingHash
  induction l using List.reverseRecOn with
  | nil => simp
  | append_singleton t b _ =>
    rw [List.foldl_append]
    exact Nat.mod_lt _ (by decide)

theorem rollingHash_set_ne (l : List Nat) (q v : Nat) (hq : q < l.length) (hv : v < 256)
    (hl : l.getD q 0 < 256) (hne : v ≠ l.getD q 0) :
    rollingHash (l.set q v) ≠ rollingHash l := by
  have hget : l.getD q 0 = l[q] := by
    simp [List.getD_eq_getElem?_getD, List.getElem?_eq_getElem hq]
  rw [hget] at hl hne
  have hsplit : l = l.take q ++ l[q] :: l.drop (q + 1) := by
    rw [← List.drop_eq_getElem_cons hq, List.take_append_drop]
  have hset : l.set q v = l.take q ++ v :: l.drop (q + 1) := by
    rw [List.set_eq_take_append_cons_drop, if_pos hq]
  intro heq
  rw [hset] at heq
  conv at heq => rhs; rw [hsplit]
  unfold rollingHash at heq
  simp only [List.foldl_append, List.foldl_cons] at heq
  have hlt : List.foldl (fun h b => (h * 33 + b) % 4294967296) 0 (l.take q) < 4294967296 :=
    rollingHash_lt (l.take q)
  have := hash_fold_injective _ _ _ (Nat.mod_lt _ (by decide)) (Nat.mod_lt _ (by decide)) heq
  omega

/-! ## Reading a record -/

/-- What `LoadGame` reads from a file made of a 9-byte header, a 4-byte version,
70 bytes of payload and 4 bytes of checksum. -/
theorem file_parts (H V P C : List Nat) (hH : H.length = 9) (hV : V.length = 4)
    (hP : P.length = 70) (hC : C.length = 4) :
    (H ++ V ++ (P ++ C)).length = expectedSize ∧
    fileHeader (H ++ V ++ (P ++ C)) = H ∧
    fileVersion (H ++ V ++ (P ++ C)) = uint32OfBytes V ∧
    storedChecksum (H ++ V ++ (P ++ C)) = uint32OfBytes C ∧
    loadedBytesCleared (H ++ V ++ (P ++ C)) = P ++ uint32Bytes 0 ∧
    CalculateChecksumOf (loadedBytesCleared (H ++ V ++ (P ++ C))) = rollingHash P := by
  have hloaded : loadedBytes (H ++ V ++ (P ++ C)) = P ++ C := by
    unfold loadedBytes
    rw [drop_append_length (H ++ V) _ _ (by simp [hH, hV, sizeofHeader, sizeofUInt32])]
    exact List.take_of_length_le (by simp [hP, hC, sizeofGameState, sizeofUInt32, BOARD_SIZE])
  have hcleared : loadedBytesCleared (H ++ V ++ (P ++ C)) = P ++ uint32Bytes 0 := by
    unfold loadedBytesCleared
    rw [hloaded, take_append_length P C _ (by rw [hP]; rfl)]
  refine ⟨?_, ?_, ?_, ?_, hcleared, ?_⟩
  · simp [hH, hV, hP, hC, expectedSize, sizeofHeader, sizeofUInt32, sizeofGameState, BOARD_SIZE]
  · unfold fileHeader
    rw [List.append_assoc]
    exact take_append_length H _ sizeofHeader hH
  · unfold fileVersion
    rw [List.append_assoc, drop_append_length H _ sizeofHeader hH]
    rw [take_append_length V _ sizeofUInt32 hV]
  · unfold storedChecksum stateOfBytes
    rw [hloaded]
    simp only
    rw [drop_append_length P C 70 hP, List.take_of_length_le (by rw [hC])]
  · rw [hcleared]
    exact CalculateChecksumOf_append P _ hP

theorem header_length : SAVE_FILE_HEADER.length = 9 := rfl

theorem version_bytes : uint32OfBytes (uint32Bytes SAVE_FILE_VERSION) = SAVE_FILE_VERSION := rfl

theorem SaveGame_eq (s : GameState) (hv : ValidateGameState s = true) :
    SaveGame s = some ({ s with checksum := rollingHash (payloadPrefix s) },
      SAVE_FILE_HEADER ++ uint32Bytes SAVE_FILE_VERSION ++
        (payloadPrefix s ++ uint32Bytes (rollingHash (payloadPrefix s)))) := by
  unfold SaveGame
  rw [hv]
  simp only [Bool.not_true, Bool.false_eq_true, if_false, stateBytes_eq, CalculateChecksum_eq]
  rfl

theorem stateOfBytes_cleared (s : GameState) (hr : s.InRange) :
    stateOfBytes (payloadPrefix s ++ uint32Bytes 0) = { s with checksum := 0 } := by
  have h := stateOfBytes_stateBytes { s with checksum := 0 } hr (by show 0 < 4294967296; decide)
  rw [stateBytes_eq] at h
  exact h


/-! ## C7: save then load -/

/-- C7: for every state of `int` cells and score that the validator accepts, saving
succeeds and the record it writes passes the length, magic, version, checksum and
validity checks of loading, which adopts a state with the saved board, score,
gameOver and won. -/
theorem save_load_roundtrip (s live : GameState) (hr : s.InRange)
    (hv : ValidateGameState s = true) :
    ∃ s1 file, SaveGame s = some (s1, file) ∧
      file.length = expectedSize ∧
      fileHeader file = SAVE_FILE_HEADER ∧
      fileVersion file = SAVE_FILE_VERSION ∧
      storedChecksum file = CalculateChecksumOf (loadedBytesCleared file) ∧
      ValidateGameStateOf (loadedState file) = true ∧
      LoadGame live file = (loadedState file, none) ∧
      (loadedState file).board = s.board ∧ (loadedState file).score = s.score ∧
      (loadedState file).gameOver = s.gameOver ∧ (loadedState file).won = s.won := by
  obtain ⟨h1, h2, h3, h4, h5, h6⟩ := file_parts SAVE_FILE_HEADER (uint32Bytes SAVE_FILE_VERSION)
    (payloadPrefix s) (uint32Bytes (rollingHash (payloadPrefix s))) header_length rfl
    (payloadPrefix_length s) rfl
  rw [uint32OfBytes_uint32Bytes _ (rollingHash_lt _)] at h4
  rw [version_bytes] at h3
  have hstate : loadedState (SAVE_FILE_HEADER ++ uint32Bytes SAVE_FILE_VERSION ++
      (payloadPrefix s ++ uint32Bytes (rollingHash (payloadPrefix s)))) =
      { s with checksum := 0 } := by
    unfold loadedState
    rw [h5, stateOfBytes_cleared s hr]
  have hvalid : ValidateGameStateOf (loadedState (SAVE_FILE_HEADER ++
      uint32Bytes SAVE_FILE_VERSION ++
      (payloadPrefix s ++ uint32Bytes (rollingHash (payloadPrefix s))))) = true := by
    rw [hstate]
    exact hv
  refine ⟨_, _, SaveGame_eq s hv, h1, h2, h3, by rw [h4, h6], hvalid, ?_, ?_⟩
  · unfold LoadGame
    rw [if_neg (by rw [h1]; simp), if_neg (by rw [h2]; simp), if_neg (by rw [h3]; simp),
      if_neg (by rw [h4, h6]; simp), if_neg (by rw [hvalid]; simp)]
  · rw [hstate]
    exact ⟨rfl, rfl, rfl, rfl⟩


/-- Witness of C7 on `exampleState`. -/
theorem save_load_roundtrip_witness :
    exampleState.InRange ∧ ValidateGameState exampleState = true ∧
    ∃ s1 file, SaveGame exampleState = some (s1, file) ∧
      file.length = expectedSize ∧
      fileHeader file = SAVE_FILE_HEADER ∧
      fileVersion file = SAVE_FILE_VERSION ∧
      storedChecksum file = CalculateChecksumOf (loadedBytesCleared file) ∧
      ValidateGameStateOf (loadedState file) = true ∧
      LoadGame stuckState file = (loadedState file, none) ∧
      (loadedState file).board = exampleState.board ∧
      (loadedState file).score = exampleState.score ∧
      (loadedState file).gameOver = exampleState.gameOver ∧
      (loadedState file).won = exampleState.won :=
  ⟨by decide, by decide, save_load_roundtrip exampleState stuckState (by decide) (by decide)⟩


/-! ## C8: the checks of loading -/

/-- C8: loading adopts the decoded state exactly when the length, the header, the
version, the checksum and the validator all agree; otherwise the live state is
kept and the failure reported is that of the first failing check in the order
BadLength, BadMagic, UnsupportedVersion, ChecksumMismatch, InvalidState. -/
theorem LoadGame_spec (live : GameState) (file : List Nat) :
    (LoadGame live file = (loadedState file, none) ↔
      (file.length = expectedSize ∧ fileHeader file = SAVE_FILE_HEADER ∧
        fileVersion file = SAVE_FILE_VERSION ∧
        storedChecksum file = CalculateChecksumOf (loadedBytesCleared file) ∧
        ValidateGameStateOf (loadedState file) = true)) ∧
    (file.length ≠ expectedSize → LoadGame live file = (live, some LoadError.BadLength)) ∧
    (file.length = expectedSize → fileHeader file ≠ SAVE_FILE_HEADER →
      LoadGame live file = (live, some LoadError.BadMagic)) ∧
    (file.length = expectedSize → fileHeader file = SAVE_FILE_HEADER →
      fileVersion file ≠ SAVE_FILE_VERSION →
      LoadGame live file = (live, some LoadError.UnsupportedVersion)) ∧
    (file.length = expectedSize → fileHeader file = SAVE_FILE_HEADER →
      fileVersion file = SAVE_FILE_VERSION →
      storedChecksum file ≠ CalculateChecksumOf (loadedBytesCleared file) →
      LoadGame live file = (live, some LoadError.ChecksumMismatch)) ∧
    (file.length = expectedSize → fileHeader file = SAVE_FILE_HEADER →
      fileVersion file = SAVE_FILE_VERSION →
      storedChecksum file = CalculateChecksumOf (loadedBytesCleared file) →
      ValidateGameStateOf (loadedState file) ≠ true →
      LoadGame live file = (live, some LoadError.InvalidState)) := by
  unfold LoadGame
  refine ⟨?_, ?_, ?_, ?_, ?_, ?_⟩
  · constructor
    · intro h
      split_ifs at h with h1 h2 h3 h4 h5 <;> simp_all
    · rintro ⟨h1, h2, h3, h4, h5⟩
      simp [h1, h2, h3, h4, h5]
  · intro h1; simp [h1]
  · intro h1 h2; simp [h1, h2]
  · intro h1 h2 h3; simp [h1, h2, h3]
  · intro h1 h2 h3 h4; simp [h1, h2, h3, h4]
  · intro h1 h2 h3 h4 h5; simp [h1, h2, h3, h4, h5]

/-- Witness of C8: an empty file has the wrong length, 87 zero bytes the wrong header. -/
theorem LoadGame_spec_witness :
    LoadGame exampleState [] = (exampleState, some LoadError.BadLength) ∧
    LoadGame exampleState (List.replicate 87 0) = (exampleState, some LoadError.BadMagic) :=
  ⟨(LoadGame_spec exampleState []).2.1 (by decide),
   (LoadGame_spec exampleState (List.replicate 87 0)).2.2.1 (by decide) (by decide)⟩


/-! ## C9: a corrupted payload -/

theorem uint32Bytes_lt (n x : Nat) (hx : x ∈ uint32Bytes n) : x < 256 := by
  simp only [uint32Bytes, List.mem_cons, List.mem_singleton, List.not_mem_nil, or_false] at hx
  omega

theorem payloadPrefix_lt (s : GameState) (x : Nat) (hx : x ∈ payloadPrefix s) : x < 256 := by
  simp only [payloadPrefix, List.mem_append, List.mem_flatten, List.mem_map, List.mem_cons,
    List.mem_singleton, List.not_mem_nil, or_false] at hx
  rcases hx with (⟨l, ⟨c, _, rfl⟩, hxl⟩ | hxs) | hxb
  · exact uint32Bytes_lt _ x hxl
  · exact uint32Bytes_lt _ x hxs
  · rcases hxb with rfl | rfl
    · cases s.gameOver <;> decide
    · cases s.won <;> decide

theorem getD_lt_of_forall (l : List Nat) (i : Nat) (h : ∀ x ∈ l, x < 256) : l.getD i 0 < 256 := by
  rw [List.getD_eq_getElem?_getD]
  by_cases hi : i < l.length
  · rw [List.getElem?_eq_getElem hi]
    exact h _ (List.getElem_mem hi)
  · rw [List.getElem?_eq_none (by omega)]
    decide

theorem uint32OfBytes_set_ne (n k v : Nat) (hk : k < 4)
    (hne : v ≠ (uint32Bytes n).getD k 0) :
    uint32OfBytes ((uint32Bytes n).set k v) ≠ uint32OfBytes (uint32Bytes n) := by
  match k, hk with
  | 0, _ =>
    simp only [uint32Bytes, uint32OfBytes, List.set_cons_zero, List.getD_cons_zero,
      List.getD_cons_succ] at hne ⊢
    omega
  | 1, _ =>
    simp only [uint32Bytes, uint32OfBytes, List.set_cons_zero, List.set_cons_succ,
      List.getD_cons_zero, List.getD_cons_succ] at hne ⊢
    omega
  | 2, _ =>
    simp only [uint32Bytes, uint32OfBytes, List.set_cons_zero, List.set_cons_succ,
      List.getD_cons_zero, List.getD_cons_succ] at hne ⊢
    omega
  | 3, _ =>
    simp only [uint32Bytes, uint32OfBytes, List.set_cons_zero, List.set_cons_succ,
      List.getD_cons_zero, List.getD_cons_succ] at hne ⊢
    omega

theorem SaveGame_valid (s s1 : GameState) (file : List Nat) (h : SaveGame s = some (s1, file)) :
    ValidateGameState s = true := by
  unfold SaveGame at h
  by_cases hv : ValidateGameState s = true
  · exact hv
  · simp [hv] at h

/-- C9: in the record that saving writes, replacing the byte at any position of the
payload part (board, score, flags, checksum field) by any other byte value makes
loading fail with a checksum mismatch and keep the live state. -/
theorem corrupted_payload_rejected (s live s1 : GameState) (file : List Nat) (p v : Nat)
    (hsave : SaveGame s = some (s1, file))
    (hp1 : sizeofHeader + sizeofUInt32 ≤ p) (hp2 : p < expectedSize)
    (hv : v < 256) (hne : v ≠ file.getD p 0) :
    LoadGame live (file.set p v) = (live, some LoadError.ChecksumMismatch) := by
  have hvalid := SaveGame_valid s s1 file hsave
  rw [SaveGame_eq s hvalid] at hsave
  simp only [Option.some.injEq, Prod.mk.injEq] at hsave
  obtain ⟨-, rfl⟩ := hsave
  have hHV : (SAVE_FILE_HEADER ++ uint32Bytes SAVE_FILE_VERSION).length = 13 := rfl
  have hp1' : 13 ≤ p := hp1
  have hp2' : p < 87 := hp2
  have hPlen := payloadPrefix_length s
  rw [List.set_append_right _ _ (by rw [hHV]; exact hp1'), hHV]
  rw [List.getD_append_right _ _ _ _ (by rw [hHV]; exact hp1'), hHV] at hne
  by_cases hq : p - 13 < 70
  · rw [List.set_append_left _ _ (by rw [hPlen]; exact hq)]
    rw [List.getD_append _ _ _ _ (by rw [hPlen]; exact hq)] at hne
    obtain ⟨h1, h2, h3, h4, h5, h6⟩ := file_parts SAVE_FILE_HEADER
      (uint32Bytes SAVE_FILE_VERSION) ((payloadPrefix s).set (p - 13) v)
      (uint32Bytes (rollingHash (payloadPrefix s))) header_length rfl
      (by rw [List.length_set, hPlen]) rfl
    rw [uint32OfBytes_uint32Bytes _ (rollingHash_lt _)] at h4
    rw [version_bytes] at h3
    have hdiff := rollingHash_set_ne (payloadPrefix s) (p - 13) v (by rw [hPlen]; exact hq) hv
      (getD_lt_of_forall _ _ (payloadPrefix_lt s)) hne
    unfold LoadGame
    rw [if_neg (by rw [h1]; simp), if_neg (by rw [h2]; simp), if_neg (by rw [h3]; simp),
      if_pos (by rw [h4, h6]; exact fun h => hdiff h.symm)]
  · rw [List.set_append_right _ _ (by rw [hPlen]; omega), hPlen]
    rw [List.getD_append_right _ _ _ _ (by rw [hPlen]; omega), hPlen] at hne
    obtain ⟨h1, h2, h3, h4, h5, h6⟩ := file_parts SAVE_FILE_HEADER
      (uint32Bytes SAVE_FILE_VERSION) (payloadPrefix s)
      ((uint32Bytes (rollingHash (payloadPrefix s))).set (p - 13 - 70) v) header_length rfl
      hPlen (by rw [List.length_set]; rfl)
    rw [version_bytes] at h3
    have hdiff := uint32OfBytes_set_ne (rollingHash (payloadPrefix s)) (p - 13 - 70) v
      (by omega) hne
    rw [uint32OfBytes_uint32Bytes _ (rollingHash_lt _)] at hdiff
    unfold LoadGame
    rw [if_neg (by rw [h1]; simp), if_neg (by rw [h2]; simp), if_neg (by rw [h3]; simp),
      if_pos (by rw [h4, h6]; exact hdiff)]

/-- Witness of C9: the first payload byte of the record of `exampleState` replaced by 7. -/
theorem corrupted_payload_rejected_witness :
    SaveGame exampleState = some (exampleSaved.1, exampleSaved.2) ∧
    sizeofHeader + sizeofUInt32 ≤ 13 ∧ 13 < expectedSize ∧ 7 < 256 ∧
    7 ≠ exampleSaved.2.getD 13 0 ∧
    LoadGame stuckState (exampleSaved.2.set 13 7) =
      (stuckState, some LoadError.ChecksumMismatch) :=
  have hsave : SaveGame exampleState = some (exampleSaved.1, exampleSaved.2) := by
    unfold SaveGame
    rw [if_neg (by decide)]
    rfl
  ⟨hsave, by decide, by decide, by decide, by decide,
   corrupted_payload_rejected exampleState stuckState exampleSaved.1 exampleSaved.2 13 7 hsave
     (by decide) (by decide) (by decide) (by decide)⟩

/-! ## C12: the validator -/

theorem and_pred_eq_zero_iff (n : Nat) (hn : 0 < n) : n &&& (n - 1) = 0 ↔ ∃ k : Nat, n = 2 ^ k := by
  constructor
  · induction n using Nat.strong_induction_on with
    | _ n ih =>
      intro h
      have hdiv : n / 2 &&& (n - 1) / 2 = 0 := by
        rw [← Nat.and_div_two, h]
      rcases Nat.mod_two_eq_zero_or_one n with hpar | hpar
      · have hm : 0 < n / 2 := by omega
        have hpred : (n - 1) / 2 = n / 2 - 1 := by omega
        rw [hpred] at hdiv
        obtain ⟨k, hk⟩ := ih (n / 2) (by omega) hm hdiv
        refine ⟨k + 1, ?_⟩
        rw [pow_succ, ← hk]
        omega
      · have hpred : (n - 1) / 2 = n / 2 := by omega
        rw [hpred, Nat.and_self] at hdiv
        exact ⟨0, by omega⟩
  · rintro ⟨k, rfl⟩
    rw [Nat.and_pow_two_sub_one_eq_mod, Nat.mod_self]

theorem IsValidTileValue_iff (x : Int) :
    IsValidTileValue x = true ↔ x = 0 ∨ ∃ k : Nat, x = 2 ^ k := by
  unfold IsValidTileValue
  by_cases h0 : x = 0
  · simp [h0]
  by_cases hneg : x < 0
  · simp only [h0, hneg, if_false, if_true, false_or, Bool.false_eq_true, false_iff]
    rintro ⟨k, hk⟩
    have : (0 : Int) < 2 ^ k := by positivity
    omega
  · simp only [h0, hneg, if_false, false_or, beq_iff_eq]
    have hpos : 0 < x.toNat := by omega
    have hpred : (x - 1).toNat = x.toNat - 1 := by omega
    rw [hpred, and_pred_eq_zero_iff _ hpos]
    constructor
    · rintro ⟨k, hk⟩
      refine ⟨k, ?_⟩
      have hx : x = (x.toNat : Int) := by omega
      rw [hx, hk]
      push_cast
      rfl
    · rintro ⟨k, hk⟩
      refine ⟨k, ?_⟩
      rw [hk]
      have : ((2 : Int) ^ k).toNat = 2 ^ k := by
        have h2 : ((2 : Int) ^ k) = ((2 ^ k : Nat) : Int) := by push_cast; rfl
        rw [h2, Int.toNat_ofNat]
      exact this

theorem validateFields_iff (score : Int) (board : Board) :
    validateFields score board = true ↔
      0 ≤ score ∧ ∀ x ∈ board.cells, IsValidTileValue x = true := by
  rcases board with ⟨⟨a0, a1, a2, a3⟩, ⟨b0, b1, b2, b3⟩, ⟨c0, c1, c2, c3⟩, ⟨d0, d1, d2, d3⟩⟩
  by_cases hs : score < 0
  · simp [validateFields, hs]
  · simp [validateFields, hs, range_board, Board.get, Board.row, Row.get, Board.cells, Row.toList]
    constructor
    · rintro ⟨⟨h1, h2, h3, h4⟩, ⟨h5, h6, h7, h8⟩, ⟨h9, h10, h11, h12⟩, h13, h14, h15, h16⟩
      exact ⟨by omega, h1, h2, h3, h4, h5, h6, h7, h8, h9, h10, h11, h12, h13, h14, h15, h16⟩
    · rintro ⟨-, h1, h2, h3, h4, h5, h6, h7, h8, h9, h10, h11, h12, h13, h14, h15, h16⟩
      exact ⟨⟨h1, h2, h3, h4⟩, ⟨h5, h6, h7, h8⟩, ⟨h9, h10, h11, h12⟩, h13, h14, h15, h16⟩

/-- C12 (amended): in both overloads the validator returns true exactly when the
score is non-negative and every one of the 16 cells is 0 or a power of two,
1 = 2^0 included. -/
theorem ValidateGameState_iff (s : GameState) :
    (ValidateGameState s = true ↔
      0 ≤ s.score ∧ ∀ x ∈ s.board.cells, x = 0 ∨ ∃ k : Nat, x = 2 ^ k) ∧
    (ValidateGameStateOf s = true ↔
      0 ≤ s.score ∧ ∀ x ∈ s.board.cells, x = 0 ∨ ∃ k : Nat, x = 2 ^ k) := by
  have h : validateFields s.score s.board = true ↔
      0 ≤ s.score ∧ ∀ x ∈ s.board.cells, x = 0 ∨ ∃ k : Nat, x = 2 ^ k := by
    rw [validateFields_iff]
    constructor
    · rintro ⟨h1, h2⟩
      exact ⟨h1, fun x hx => (IsValidTileValue_iff x).mp (h2 x hx)⟩
    · rintro ⟨h1, h2⟩
      exact ⟨h1, fun x hx => (IsValidTileValue_iff x).mpr (h2 x hx)⟩
  exact ⟨h, h⟩

/-- Counterexample to C12 as stated: a board with a tile of 1 is accepted by both
overloads, and 1 is neither 0 nor a power of two that is at least 2. -/
theorem ValidateGameState_one_counterexample :
    ValidateGameState oneTileState = true ∧ ValidateGameStateOf oneTileState = true ∧
    ¬ (0 ≤ oneTileState.score ∧
      ∀ x ∈ oneTileState.board.cells, x = 0 ∨ (2 ≤ x ∧ ∃ k : Nat, x = 2 ^ k)) := by
  refine ⟨by decide, by decide, ?_⟩
  rintro ⟨-, h⟩
  have h1 := h 1 (by decide)
  omega


/-! ## C11: the layout of the record -/

/-- C11 (amended): for every state the validator lets through, the saved record is
exactly the 9-byte tag (`2048SAVE` and its terminating NUL), then the 4-byte
little-endian version 1 at offset 9, then the packed payload at offset 13 (16 board
integers, score, gameOver byte, won byte: 70 bytes, and the 4-byte checksum); it
is 9 + 4 + 74 = 87 bytes long, and loading refuses every other length. -/
theorem saved_record_layout (s : GameState) (hv : ValidateGameState s = true) :
    ∃ s1 file, SaveGame s = some (s1, file) ∧
      file = SAVE_FILE_HEADER ++ uint32Bytes SAVE_FILE_VERSION ++
        (payloadPrefix s ++ uint32Bytes (CalculateChecksum s)) ∧
      SAVE_FILE_HEADER = [50, 48, 52, 56, 83, 65, 86, 69, 0] ∧
      file.take 9 = SAVE_FILE_HEADER ∧
      (file.drop 9).take 4 = [1, 0, 0, 0] ∧
      file.drop 13 = payloadPrefix s ++ uint32Bytes (CalculateChecksum s) ∧
      (payloadPrefix s).length = 70 ∧ (uint32Bytes (CalculateChecksum s)).length = 4 ∧
      file.length = 87 ∧
      ∀ (live : GameState) (other : List Nat), other.length ≠ 87 →
        LoadGame live other = (live, some LoadError.BadLength) := by
  refine ⟨_, _, SaveGame_eq s hv, ?_, rfl, ?_, ?_, ?_, payloadPrefix_length s, rfl, ?_, ?_⟩
  · rw [CalculateChecksum_eq]
  · rw [List.append_assoc]
    exact take_append_length _ _ 9 rfl
  · rw [List.append_assoc, drop_append_length SAVE_FILE_HEADER _ 9 rfl]
    exact take_append_length _ _ 4 rfl
  · rw [drop_append_length (SAVE_FILE_HEADER ++ uint32Bytes SAVE_FILE_VERSION) _ 13 rfl,
      CalculateChecksum_eq]
  · simp [payloadPrefix_length, uint32Bytes_length, header_length]
  · intro live other hlen
    have hlen2 : other.length ≠ expectedSize := hlen
    unfold LoadGame
    rw [if_pos hlen2]

/-- Witness of C11 (amended) on `exampleState`. -/
theorem saved_record_layout_witness :
    ValidateGameState exampleState = true ∧
    ∃ s1 file, SaveGame exampleState = some (s1, file) ∧
      file = SAVE_FILE_HEADER ++ uint32Bytes SAVE_FILE_VERSION ++
        (payloadPrefix exampleState ++ uint32Bytes (CalculateChecksum exampleState)) ∧
      SAVE_FILE_HEADER = [50, 48, 52, 56, 83, 65, 86, 69, 0] ∧
      file.take 9 = SAVE_FILE_HEADER ∧
      (file.drop 9).take 4 = [1, 0, 0, 0] ∧
      file.drop 13 = payloadPrefix exampleState ++ uint32Bytes (CalculateChecksum exampleState) ∧
      (payloadPrefix exampleState).length = 70 ∧
      (uint32Bytes (CalculateChecksum exampleState)).length = 4 ∧
      file.length = 87 ∧
      ∀ (live : GameState) (other : List Nat), other.length ≠ 87 →
        LoadGame live other = (live, some LoadError.BadLength) :=
  ⟨by decide, saved_record_layout exampleState (by decide)⟩

/-- Counterexample to C11 as stated: the record of `exampleState` is 87 bytes long,
byte 8 is the NUL of the tag so the version starts at offset 9, and loading
refuses the 86-byte record laid out with an 8-byte tag. -/
theorem saved_record_counterexample :
    SaveGame exampleState = some (exampleSaved.1, exampleSaved.2) ∧
    exampleSaved.2.length = 87 ∧ exampleSaved.2.length ≠ 86 ∧
    exampleSaved.2.take 9 = [50, 48, 52, 56, 83, 65, 86, 69, 0] ∧
    (exampleSaved.2.drop 8).take 4 = [0, 1, 0, 0] ∧
    (exampleSaved.2.drop 8).take 4 ≠ uint32Bytes 1 ∧
    (exampleSaved.2.drop 9).take 4 = uint32Bytes 1 ∧
    shortTagRecord.length = 86 ∧
    LoadGame exampleState shortTagRecord = (exampleState, some LoadError.BadLength) := by
  refine ⟨?_, by decide, by decide, by decide, by decide, by decide, by decide, by decide,
    by decide⟩
  unfold SaveGame
  rw [if_neg (by decide)]
  rfl

/-! ## C13: the tile spawner -/

theorem foldl_push_if {α β : Type} (p : α → Prop) [DecidablePred p] (f : α → β) (l : List α)
    (init : List β) :
    l.foldl (fun acc x => if p x then acc ++ [f x] else acc) init =
      init ++ (l.filter (fun x => decide (p x))).map f := by
  induction l generalizing init with
  | nil => simp
  | cons x t ih =>
    simp only [List.foldl_cons, ih]
    by_cases hx : p x
    · simp [hx, List.filter_cons]
    · simp [hx, List.filter_cons]

theorem foldl_append_each {α β : Type} (g : α → List β) (l : List α) (init : List β) :
    l.foldl (fun acc x => acc ++ g x) init = init ++ (l.map g).flatten := by
  induction l generalizing init with
  | nil => simp
  | cons x t ih => simp [List.foldl_cons, ih]

theorem emptyCells_eq (b : Board) :
    emptyCells b = ((List.range 4).map (fun i =>
      ((List.range 4).filter (fun j => decide (b.get i j = 0))).map (fun j => (i, j)))).flatten := by
  unfold emptyCells
  simp only [BOARD_SIZE, foldl_push_if (fun j => b.get _ j = 0) (fun j => (_, j))]
  rw [foldl_append_each]
  simp

theorem mem_emptyCells (b : Board) (i j : Nat) :
    (i, j) ∈ emptyCells b ↔ i < 4 ∧ j < 4 ∧ b.get i j = 0 := by
  rw [emptyCells_eq]
  simp only [List.mem_flatten, List.mem_map, List.mem_range, List.mem_filter,
    decide_eq_true_eq, Prod.mk.injEq]
  constructor
  · rintro ⟨l, ⟨i', hi', rfl⟩, hmem⟩
    simp only [List.mem_map, List.mem_filter, List.mem_range, decide_eq_true_eq,
      Prod.mk.injEq] at hmem
    obtain ⟨j', ⟨hj', h0⟩, rfl, rfl⟩ := hmem
    exact ⟨hi', hj', h0⟩
  · rintro ⟨hi, hj, h0⟩
    refine ⟨_, ⟨i, hi, rfl⟩, ?_⟩
    exact List.mem_map.mpr ⟨j, List.mem_filter.mpr ⟨List.mem_range.mpr hj, by simpa using h0⟩, rfl⟩

theorem emptyCells_eq_nil_iff (b : Board) : emptyCells b = [] ↔ b.full := by
  constructor
  · intro h i hi j hj h0
    have hm := (mem_emptyCells b i j).mpr ⟨hi, hj, h0⟩
    rw [h] at hm
    simp at hm
  · intro hfull
    apply List.eq_nil_iff_forall_not_mem.mpr
    rintro ⟨i, j⟩ hm
    obtain ⟨hi, hj, h0⟩ := (mem_emptyCells b i j).mp hm
    exact hfull i hi j hj h0

theorem exists_lt_four (p : Nat → Prop) : (∃ i, i < 4 ∧ p i) ↔ p 0 ∨ p 1 ∨ p 2 ∨ p 3 := by
  constructor
  · rintro ⟨i, hi, h⟩
    match i, hi, h with
    | 0, _, h => exact Or.inl h
    | 1, _, h => exact Or.inr (Or.inl h)
    | 2, _, h => exact Or.inr (Or.inr (Or.inl h))
    | 3, _, h => exact Or.inr (Or.inr (Or.inr h))
  · rintro (h | h | h | h)
    · exact ⟨0, by omega, h⟩
    · exact ⟨1, by omega, h⟩
    · exact ⟨2, by omega, h⟩
    · exact ⟨3, by omega, h⟩

theorem mem_cells_iff (b : Board) (x : Int) :
    x ∈ b.cells ↔ ∃ i, i < 4 ∧ ∃ j, j < 4 ∧ x = b.get i j := by
  rcases b with ⟨⟨a0, a1, a2, a3⟩, ⟨b0, b1, b2, b3⟩, ⟨c0, c1, c2, c3⟩, ⟨d0, d1, d2, d3⟩⟩
  simp only [exists_lt_four, Board.cells, Row.toList, Board.get, Board.row, Row.get,
    List.mem_append, List.mem_cons, List.mem_singleton, List.not_mem_nil, or_false]
  tauto

theorem row_get_set_same (r : Row) (j : Nat) (v : Int) (hj : j < 4) : (r.set j v).get j = v := by
  match j, hj with
  | 0, _ => rfl
  | 1, _ => rfl
  | 2, _ => rfl
  | 3, _ => rfl

theorem row_get_set_other (r : Row) (j j2 : Nat) (v : Int) (hj : j < 4) (hj2 : j2 < 4)
    (hne : j2 ≠ j) : (r.set j v).get j2 = r.get j2 := by
  match j, hj, j2, hj2, hne with
  | 0, _, 1, _, _ => rfl
  | 0, _, 2, _, _ => rfl
  | 0, _, 3, _, _ => rfl
  | 1, _, 0, _, _ => rfl
  | 1, _, 2, _, _ => rfl
  | 1, _, 3, _, _ => rfl
  | 2, _, 0, _, _ => rfl
  | 2, _, 1, _, _ => rfl
  | 2, _, 3, _, _ => rfl
  | 3, _, 0, _, _ => rfl
  | 3, _, 1, _, _ => rfl
  | 3, _, 2, _, _ => rfl
  | 0, _, 0, _, h => exact absurd rfl h
  | 1, _, 1, _, h => exact absurd rfl h
  | 2, _, 2, _, h => exact absurd rfl h
  | 3, _, 3, _, h => exact absurd rfl h

theorem Board.row_setRow_same (b : Board) (i : Nat) (r : Row) (hi : i < 4) :
    (b.setRow i r).row i = r := by
  match i, hi with
  | 0, _ => rfl
  | 1, _ => rfl
  | 2, _ => rfl
  | 3, _ => rfl

theorem Board.row_setRow_other (b : Board) (i i2 : Nat) (r : Row) (hi : i < 4) (hi2 : i2 < 4)
    (hne : i2 ≠ i) : (b.setRow i r).row i2 = b.row i2 := by
  match i, hi, i2, hi2, hne with
  | 0, _, 1, _, _ => rfl
  | 0, _, 2, _, _ => rfl
  | 0, _, 3, _, _ => rfl
  | 1, _, 0, _, _ => rfl
  | 1, _, 2, _, _ => rfl
  | 1, _, 3, _, _ => rfl
  | 2, _, 0, _, _ => rfl
  | 2, _, 1, _, _ => rfl
  | 2, _, 3, _, _ => rfl
  | 3, _, 0, _, _ => rfl
  | 3, _, 1, _, _ => rfl
  | 3, _, 2, _, _ => rfl
  | 0, _, 0, _, h => exact absurd rfl h
  | 1, _, 1, _, h => exact absurd rfl h
  | 2, _, 2, _, h => exact absurd rfl h
  | 3, _, 3, _, h => exact absurd rfl h

theorem board_get_set_same (b : Board) (i j : Nat) (v : Int) (hi : i < 4) (hj : j < 4) :
    (b.set i j v).get i j = v := by
  unfold Board.set Board.get
  rw [Board.row_setRow_same b i _ hi, row_get_set_same _ j v hj]

theorem board_get_set_other (b : Board) (i j i2 j2 : Nat) (v : Int) (hi : i < 4) (hj : j < 4)
    (hi2 : i2 < 4) (hj2 : j2 < 4) (hne : i2 ≠ i ∨ j2 ≠ j) :
    (b.set i j v).get i2 j2 = b.get i2 j2 := by
  unfold Board.set Board.get
  by_cases hi' : i2 = i
  · subst hi'
    rw [Board.row_setRow_same b i2 _ hi]
    rcases hne with h | h
    · exact absurd rfl h
    · exact row_get_set_other _ j j2 v hj hj2 h
  · rw [Board.row_setRow_other b i i2 _ hi hi2 hi']

theorem ValidateGameState_iff_get (s : GameState) :
    ValidateGameState s = true ↔
      0 ≤ s.score ∧ ∀ i, i < 4 → ∀ j, j < 4 → IsValidTileValue (s.board.get i j) = true := by
  unfold ValidateGameState
  rw [validateFields_iff]
  constructor
  · rintro ⟨h1, h2⟩
    exact ⟨h1, fun i hi j hj => h2 _ ((mem_cells_iff _ _).mpr ⟨i, hi, j, hj, rfl⟩)⟩
  · rintro ⟨h1, h2⟩
    refine ⟨h1, fun x hx => ?_⟩
    obtain ⟨i, hi, j, hj, rfl⟩ := (mem_cells_iff _ _).mp hx
    exact h2 i hi j hj

theorem AddRandomTile_of_full (s : GameState) (index : Nat) (below : Bool)
    (hfull : s.board.full) :
    AddRandomTile s index below = (s, some SpawnError.NoEmptyCell) := by
  have hnil := (emptyCells_eq_nil_iff s.board).mpr hfull
  unfold AddRandomTile
  rw [hnil]
  rfl

theorem AddRandomTile_of_not_full (s : GameState) (index : Nat) (below : Bool)
    (hv : ValidateGameState s = true) (hne : emptyCells s.board ≠ [])
    (hidx : index < (emptyCells s.board).length) :
    ∃ ci cj, ci < 4 ∧ cj < 4 ∧ s.board.get ci cj = 0 ∧
      AddRandomTile s index below =
        ({ s with board := s.board.set ci cj (if below then 2 else 4) }, none) := by
  obtain ⟨ci, cj, hcell⟩ : ∃ ci cj, (emptyCells s.board).getD index (0, 0) = (ci, cj) :=
    ⟨_, _, rfl⟩
  have hmem : (ci, cj) ∈ emptyCells s.board := by
    rw [← hcell, List.getD_eq_getElem?_getD, List.getElem?_eq_getElem hidx]
    exact List.getElem_mem hidx
  obtain ⟨hi, hj, h0⟩ := (mem_emptyCells s.board ci cj).mp hmem
  have hempty : (emptyCells s.board).isEmpty = false := by
    cases hc : emptyCells s.board with
    | nil => exact absurd hc hne
    | cons _ _ => rfl
  have hval : IsValidTileValue (if below then 2 else 4) = true := by
    cases below <;> decide
  have hv1 : ValidateGameState
      { s with board := s.board.set ci cj (if below then 2 else 4) } = true := by
    rw [ValidateGameState_iff_get] at hv ⊢
    refine ⟨hv.1, fun i2 hi2 j2 hj2 => ?_⟩
    by_cases hsame : i2 = ci ∧ j2 = cj
    · obtain ⟨h1, h2⟩ := hsame
      subst h1 h2
      simp only
      rw [board_get_set_same _ _ _ _ hi hj]
      exact hval
    · have hor : i2 ≠ ci ∨ j2 ≠ cj := by
        by_contra hcon
        push_neg at hcon
        exact hsame hcon
      simp only
      rw [board_get_set_other _ _ _ _ _ _ hi hj hi2 hj2 hor]
      exact hv.2 i2 hi2 j2 hj2
  refine ⟨ci, cj, hi, hj, h0, ?_⟩
  unfold AddRandomTile
  simp only [hempty, hcell, hv1, Bool.false_eq_true, if_false, Bool.not_true]

/-- C13: on a state the validator accepts, whatever the random draws, AddRandomTile
on a full board throws the no-empty-cell error and leaves the state as it is; on
any other board there is a cell to draw, and the call succeeds and changes exactly
one cell, which was 0 and becomes 2 or 4, leaving the other cells, the score and
both flags as they were. -/
theorem AddRandomTile_spec (s : GameState) (index : Nat) (below : Bool)
    (hv : ValidateGameState s = true) :
    (s.board.full → AddRandomTile s index below = (s, some SpawnError.NoEmptyCell)) ∧
    (¬ s.board.full → 0 < (emptyCells s.board).length ∧
      (index < (emptyCells s.board).length →
        ∃ i j, i < 4 ∧ j < 4 ∧ s.board.get i j = 0 ∧
          (AddRandomTile s index below).2 = none ∧
          (AddRandomTile s index below).1.board.get i j = (if below then 2 else 4) ∧
          (∀ i2 j2, i2 < 4 → j2 < 4 → (i2 ≠ i ∨ j2 ≠ j) →
            (AddRandomTile s index below).1.board.get i2 j2 = s.board.get i2 j2) ∧
          (AddRandomTile s index below).1.score = s.score ∧
          (AddRandomTile s index below).1.gameOver = s.gameOver ∧
          (AddRandomTile s index below).1.won = s.won)) := by
  refine ⟨AddRandomTile_of_full s index below, ?_⟩
  intro hnot
  have hne : emptyCells s.board ≠ [] := fun h => hnot ((emptyCells_eq_nil_iff s.board).mp h)
  refine ⟨List.length_pos.mpr hne, ?_⟩
  intro hidx
  obtain ⟨ci, cj, hi, hj, h0, hres⟩ := AddRandomTile_of_not_full s index below hv hne hidx
  rw [hres]
  refine ⟨ci, cj, hi, hj, h0, rfl, ?_, ?_, rfl, rfl, rfl⟩
  · exact board_get_set_same _ _ _ _ hi hj
  · intro i2 j2 hi2 hj2 hor
    exact board_get_set_other _ _ _ _ _ _ hi hj hi2 hj2 hor

/-- Witness of C13: the full board of `stuckState` refuses the tile, and on
`exampleState` the second empty cell receives a 2. -/
theorem AddRandomTile_spec_witness :
    ValidateGameState stuckState = true ∧
    AddRandomTile stuckState 0 true = (stuckState, some SpawnError.NoEmptyCell) ∧
    ValidateGameState exampleState = true ∧
    ∃ i j, i < 4 ∧ j < 4 ∧ exampleState.board.get i j = 0 ∧
      (AddRandomTile exampleState 1 true).2 = none ∧
      (AddRandomTile exampleState 1 true).1.board.get i j = (if true then 2 else 4) ∧
      (∀ i2 j2, i2 < 4 → j2 < 4 → (i2 ≠ i ∨ j2 ≠ j) →
        (AddRandomTile exampleState 1 true).1.board.get i2 j2 = exampleState.board.get i2 j2) ∧
      (AddRandomTile exampleState 1 true).1.score = exampleState.score ∧
      (AddRandomTile exampleState 1 true).1.gameOver = exampleState.gameOver ∧
      (AddRandomTile exampleState 1 true).1.won = exampleState.won :=
  ⟨by decide, (AddRandomTile_spec stuckState 0 true (by decide)).1 (by decide), by decide,
   ((AddRandomTile_spec exampleState 1 true (by decide)).2 (by decide)).2 (by decide)⟩

/-! ## C14: a move that moved leaves room for the spawn -/

theorem merge_eq_of_tiles (l : List Int) (hl : ∀ x ∈ l, 0 ≤ x)
    (ht : ∀ t ∈ mergedTiles l, t < 2147483648) :
    mergePairsW l = mergePairs l ∧ mergedTilesW l = mergedTiles l := by
  induction l using mergePairsW.induct with
  | case1 b t ih =>
    have hb := hl b (by simp)
    have htile : 2 * b < 2147483648 := ht (2 * b) (by simp [mergedTiles])
    have hw : wrap32 (b * 2) = 2 * b := by
      rw [wrap32_of_inInt32 _ (by unfold InInt32; omega)]; ring
    obtain ⟨h1, h2⟩ := ih (fun x hx => hl x (by simp [hx]))
      (fun x hx => ht x (by simp [mergedTiles, hx]))
    simp [mergePairsW, mergePairs, mergedTilesW, mergedTiles, h1, h2, hw]
  | case2 a b t hab ih =>
    obtain ⟨h1, h2⟩ := ih (fun x hx => hl x (List.mem_cons_of_mem _ hx))
      (fun x hx => ht x (by simpa [mergedTiles, hab] using hx))
    simp [mergePairsW, mergePairs, mergedTilesW, mergedTiles, hab, h1, h2]
  | case3 l h =>
    match l with
    | [] => simp [mergePairsW, mergePairs, mergedTilesW, mergedTiles]
    | [a] => simp [mergePairsW, mergePairs, mergedTilesW, mergedTiles]
    | a :: b :: t => exact absurd rfl (h a b t)

theorem mem_mergePairs (l : List Int) (x : Int) (hx : x ∈ mergePairs l) :
    x ∈ l ∨ ∃ a ∈ l, x = 2 * a := by
  induction l using mergePairsW.induct with
  | case1 b t ih =>
    simp only [mergePairs, if_true, List.mem_cons] at hx
    rcases hx with rfl | hx
    · exact Or.inr ⟨b, by simp, rfl⟩
    · rcases ih hx with h | ⟨a, ha, rfl⟩
      · exact Or.inl (by simp [h])
      · exact Or.inr ⟨a, by simp [ha], rfl⟩
  | case2 a b t hab ih =>
    simp only [mergePairs, hab, if_false, List.mem_cons] at hx
    rcases hx with rfl | hx
    · exact Or.inl (by simp)
    · rcases ih (by simpa using hx) with h | ⟨c, hc, rfl⟩
      · exact Or.inl (List.mem_cons_of_mem _ h)
      · exact Or.inr ⟨c, List.mem_cons_of_mem _ hc, rfl⟩
  | case3 l h =>
    match l, hx with
    | [], hx => simp [mergePairs] at hx
    | [a], hx => exact Or.inl (by simpa [mergePairs] using hx)
    | a :: b :: t, _ => exact absurd rfl (h a b t)

theorem mem_mergedTiles (l : List Int) (x : Int) (hx : x ∈ mergedTiles l) :
    ∃ a ∈ l, x = 2 * a := by
  induction l using mergePairsW.induct with
  | case1 b t ih =>
    simp only [mergedTiles, if_true, List.mem_cons] at hx
    rcases hx with rfl | hx
    · exact ⟨b, by simp, rfl⟩
    · obtain ⟨a, ha, rfl⟩ := ih hx
      exact ⟨a, by simp [ha], rfl⟩
  | case2 a b t hab ih =>
    simp only [mergedTiles, hab, if_false] at hx
    obtain ⟨c, hc, rfl⟩ := ih hx
    exact ⟨c, List.mem_cons_of_mem _ hc, rfl⟩
  | case3 l h =>
    match l, hx with
    | [], hx => simp [mergedTiles] at hx
    | [a], hx => simp [mergedTiles] at hx
    | a :: b :: t, _ => exact absurd rfl (h a b t)

theorem valid_double (a : Int) (h : IsValidTileValue a = true) :
    IsValidTileValue (2 * a) = true := by
  rw [IsValidTileValue_iff] at h ⊢
  rcases h with rfl | ⟨k, rfl⟩
  · exact Or.inl rfl
  · exact Or.inr ⟨k + 1, by ring⟩

theorem valid_nonneg (a : Int) (h : IsValidTileValue a = true) : 0 ≤ a := by
  rw [IsValidTileValue_iff] at h
  rcases h with rfl | ⟨k, rfl⟩
  · exact le_refl 0
  · positivity

theorem mem_padRight (m : List Int) (x : Int) (hx : x ∈ padRight m) : x ∈ m ∨ x = 0 := by
  unfold padRight at hx
  rcases List.mem_append.mp hx with h | h
  · exact Or.inl h
  · exact Or.inr (List.eq_of_mem_replicate h)

theorem specRow_valid (l : List Int) (hl : ∀ x ∈ l, IsValidTileValue x = true) :
    ∀ x ∈ specRow l, IsValidTileValue x = true := by
  intro x hx
  rcases mem_padRight _ x hx with h | rfl
  · rcases mem_mergePairs _ x h with h1 | ⟨a, ha, rfl⟩
    · exact hl x (List.mem_filter.mp h1).1
    · exact valid_double a (hl a (List.mem_filter.mp ha).1)
  · decide

theorem addTiles_nonneg (tiles : List Int) (sc : Int) (hsc : 0 ≤ sc)
    (ht : ∀ t ∈ tiles, 0 ≤ t) (h : sc + tiles.sum < 2147483648) :
    addTiles sc tiles = sc + tiles.sum := by
  induction tiles generalizing sc with
  | nil => simp [addTiles]
  | cons t ts ih =>
    have ht0 := ht t (by simp)
    have hts : ∀ x ∈ ts, 0 ≤ x := fun x hx => ht x (by simp [hx])
    have hsum : 0 ≤ ts.sum := List.sum_nonneg hts
    simp only [List.sum_cons] at h
    have hw : wrap32 (sc + t) = sc + t := by
      apply wrap32_of_inInt32
      unfold InInt32
      omega
    have hstep : addTiles sc (t :: ts) = addTiles (wrap32 (sc + t)) ts := rfl
    rw [hstep, hw, ih (sc + t) (by omega) hts (by omega)]
    simp [List.sum_cons]; ring

theorem leftRow_changed_zero (l : List Int) (hlen : l.length = 4) (h : leftRow l ≠ l) :
    (0 : Int) ∈ leftRow l := by
  by_contra h0
  apply h
  have hm := merge_length (dropZeros l)
  have hdz := dropZeros_length_le l
  have hfull : 4 ≤ (mergePairsW (dropZeros l)).length := by
    by_contra hlt
    apply h0
    unfold leftRow padRight
    apply List.mem_append_right
    rw [List.mem_replicate]
    exact ⟨by omega, rfl⟩
  have htiles : mergedTilesW (dropZeros l) = [] := List.length_eq_zero.mp (by omega)
  have hdzl : (dropZeros l).length = l.length := by omega
  have hdzeq : dropZeros l = l :=
    List.filter_eq_self.mpr (List.filter_length_eq_length.mp hdzl)
  unfold leftRow
  rw [mergePairsW_of_no_tiles _ htiles, hdzeq]
  simp [padRight, hlen]

theorem not_full_iff (b : Board) : ¬ b.full ↔ (0 : Int) ∈ b.cells := by
  rw [mem_cells_iff]
  unfold Board.full
  constructor
  · intro h
    by_contra hne
    apply h
    intro i hi j hj h0
    exact hne ⟨i, hi, j, hj, h0.symm⟩
  · rintro ⟨i, hi, j, hj, h0⟩ hfull
    exact hfull i hi j hj h0.symm

theorem leftBoard_changed_not_full (b : Board) (h : leftBoard b ≠ b) : ¬ (leftBoard b).full := by
  rw [not_full_iff]
  rcases b with ⟨r0, r1, r2, r3⟩
  have key : ∀ r : Row, rowOfList (leftRow r.toList) ≠ r →
      (0 : Int) ∈ (rowOfList (leftRow r.toList)).toList := by
    intro r hr
    rw [toList_rowOfList _ (leftRow_length _ (by rfl))]
    apply leftRow_changed_zero _ (by rfl)
    intro heq
    apply hr
    rw [heq]
    rfl
  simp only [leftBoard, ne_eq, Board.mk.injEq, not_and_or] at h
  simp only [leftBoard, Board.cells, List.mem_append]
  by_cases h0 : rowOfList (leftRow r0.toList) = r0
  · by_cases h1 : rowOfList (leftRow r1.toList) = r1
    · by_cases h2 : rowOfList (leftRow r2.toList) = r2
      · have h3 : ¬ rowOfList (leftRow r3.toList) = r3 := by tauto
        exact Or.inr (key r3 h3)
      · exact Or.inl (Or.inr (key r2 h2))
    · exact Or.inl (Or.inl (Or.inr (key r1 h1)))
  · exact Or.inl (Or.inl (Or.inl (key r0 h0)))

theorem specTiles_nonneg (b : Board) (hb : ∀ x ∈ b.cells, IsValidTileValue x = true) :
    ∀ t ∈ specTiles b, 0 ≤ t := by
  intro t ht
  have key : ∀ r : Row, (∀ x ∈ r.toList, IsValidTileValue x = true) →
      t ∈ mergedTiles (dropZeros r.toList) → 0 ≤ t := by
    intro r hr hmem
    obtain ⟨a, ha, rfl⟩ := mem_mergedTiles _ t hmem
    have := valid_nonneg a (hr a (List.mem_filter.mp ha).1)
    omega
  unfold Board.cells at hb
  simp only [specTiles, List.mem_append] at ht
  rcases ht with ((h | h) | h) | h
  · exact key b.r0 (fun x hx => hb x (by simp [hx])) h
  · exact key b.r1 (fun x hx => hb x (by simp [hx])) h
  · exact key b.r2 (fun x hx => hb x (by simp [hx])) h
  · exact key b.r3 (fun x hx => hb x (by simp [hx])) h

theorem leftBoard_of_tiles (b : Board) (hb : ∀ x ∈ b.cells, IsValidTileValue x = true)
    (ht : ∀ t ∈ specTiles b, t < 2147483648) :
    boardTiles b = specTiles b ∧ ∀ x ∈ (leftBoard b).cells, IsValidTileValue x = true := by
  have key : ∀ r : Row, (∀ x ∈ r.toList, IsValidTileValue x = true) →
      (∀ t ∈ mergedTiles (dropZeros r.toList), t < 2147483648) →
      leftTiles r.toList = mergedTiles (dropZeros r.toList) ∧
      ∀ x ∈ (rowOfList (leftRow r.toList)).toList, IsValidTileValue x = true := by
    intro r hr htr
    obtain ⟨h1, h2⟩ := merge_eq_of_tiles (dropZeros r.toList)
      (fun x hx => valid_nonneg x (hr x (List.mem_filter.mp hx).1)) htr
    refine ⟨h2, ?_⟩
    rw [toList_rowOfList _ (leftRow_length _ (by rfl))]
    have hspec : leftRow r.toList = specRow r.toList := by
      unfold leftRow specRow
      rw [h1]
    rw [hspec]
    exact specRow_valid _ hr
  unfold Board.cells at hb
  simp only [specTiles, List.mem_append] at ht
  obtain ⟨a0, b0⟩ := key b.r0 (fun x hx => hb x (by simp [hx])) (fun t h => ht t (by simp [h]))
  obtain ⟨a1, b1⟩ := key b.r1 (fun x hx => hb x (by simp [hx])) (fun t h => ht t (by simp [h]))
  obtain ⟨a2, b2⟩ := key b.r2 (fun x hx => hb x (by simp [hx])) (fun t h => ht t (by simp [h]))
  obtain ⟨a3, b3⟩ := key b.r3 (fun x hx => hb x (by simp [hx])) (fun t h => ht t (by simp [h]))
  constructor
  · simp only [boardTiles, specTiles, a0, a1, a2, a3]
  · intro x hx
    simp only [leftBoard, Board.cells, List.mem_append] at hx
    rcases hx with ((h | h) | h) | h
    · exact b0 x h
    · exact b1 x h
    · exact b2 x h
    · exact b3 x h

/-- What `MoveLeft` leaves behind on a valid state when nothing overflows. -/
theorem MoveLeft_safe (s : GameState) (hv : ValidateGameState s = true) (hno : NoOverflow s)
    (hm : (MoveLeft s).2 = true) :
    ¬ (MoveLeft s).1.board.full ∧ ValidateGameState (MoveLeft s).1 = true := by
  unfold ValidateGameState at hv ⊢
  rw [validateFields_iff] at hv ⊢
  obtain ⟨hsc, hcells⟩ := hv
  obtain ⟨htile, hsum⟩ := hno
  obtain ⟨hbt, hvalid⟩ := leftBoard_of_tiles s.board hcells htile
  rw [MoveLeft_eq] at hm ⊢
  simp only [ne_eq, decide_not, Bool.not_eq_true', decide_eq_false_iff_not] at hm
  refine ⟨leftBoard_changed_not_full _ hm, ?_, hvalid⟩
  show 0 ≤ addTiles s.score (boardTiles s.board)
  rw [hbt, addTiles_nonneg _ _ hsc (specTiles_nonneg _ hcells) hsum]
  have := List.sum_nonneg (specTiles_nonneg _ hcells)
  omega

theorem reverseRows_get (b : Board) (i j : Nat) (hi : i < 4) (hj : j < 4) :
    (reverseRowsBoard b).get i j = b.get i (3 - j) := by
  rw [reverseRowsBoard_eq]
  match i, hi, j, hj with
  | 0, _, 0, _ => rfl
  | 0, _, 1, _ => rfl
  | 0, _, 2, _ => rfl
  | 0, _, 3, _ => rfl
  | 1, _, 0, _ => rfl
  | 1, _, 1, _ => rfl
  | 1, _, 2, _ => rfl
  | 1, _, 3, _ => rfl
  | 2, _, 0, _ => rfl
  | 2, _, 1, _ => rfl
  | 2, _, 2, _ => rfl
  | 2, _, 3, _ => rfl
  | 3, _, 0, _ => rfl
  | 3, _, 1, _ => rfl
  | 3, _, 2, _ => rfl
  | 3, _, 3, _ => rfl

theorem transpose_get (b : Board) (i j : Nat) (hi : i < 4) (hj : j < 4) :
    (transposeBoard b).get i j = b.get j i := by
  rw [transposeBoard_eq]
  match i, hi, j, hj with
  | 0, _, 0, _ => rfl
  | 0, _, 1, _ => rfl
  | 0, _, 2, _ => rfl
  | 0, _, 3, _ => rfl
  | 1, _, 0, _ => rfl
  | 1, _, 1, _ => rfl
  | 1, _, 2, _ => rfl
  | 1, _, 3, _ => rfl
  | 2, _, 0, _ => rfl
  | 2, _, 1, _ => rfl
  | 2, _, 2, _ => rfl
  | 2, _, 3, _ => rfl
  | 3, _, 0, _ => rfl
  | 3, _, 1, _ => rfl
  | 3, _, 2, _ => rfl
  | 3, _, 3, _ => rfl

theorem mem_cells_reverseRows (b : Board) (x : Int) :
    x ∈ (reverseRowsBoard b).cells ↔ x ∈ b.cells := by
  rw [mem_cells_iff, mem_cells_iff]
  constructor
  · rintro ⟨i, hi, j, hj, h⟩
    exact ⟨i, hi, 3 - j, by omega, by rw [h, reverseRows_get b i j hi hj]⟩
  · rintro ⟨i, hi, j, hj, h⟩
    refine ⟨i, hi, 3 - j, by omega, ?_⟩
    rw [h, reverseRows_get b i (3 - j) hi (by omega)]
    congr 1
    omega

theorem mem_cells_transpose (b : Board) (x : Int) :
    x ∈ (transposeBoard b).cells ↔ x ∈ b.cells := by
  rw [mem_cells_iff, mem_cells_iff]
  constructor
  · rintro ⟨i, hi, j, hj, h⟩
    exact ⟨j, hj, i, hi, by rw [h, transpose_get b i j hi hj]⟩
  · rintro ⟨i, hi, j, hj, h⟩
    exact ⟨j, hj, i, hi, by rw [h, transpose_get b j i hj hi]⟩

/-- A move obtained from `MoveLeft` by turning the board with `t` and back with `u`,
both of which only rearrange the cells, is as safe as `MoveLeft`. -/
theorem conjugate_safe (t u : Board → Board)
    (ht : ∀ b x, x ∈ (t b).cells ↔ x ∈ b.cells) (hu : ∀ b x, x ∈ (u b).cells ↔ x ∈ b.cells)
    (s : GameState) (hv : ValidateGameState s = true)
    (hno : NoOverflow { s with board := t s.board })
    (hm : (MoveLeft { s with board := t s.board }).2 = true) :
    ¬ (u (MoveLeft { s with board := t s.board }).1.board).full ∧
    ValidateGameState { (MoveLeft { s with board := t s.board }).1 with
      board := u (MoveLeft { s with board := t s.board }).1.board } = true := by
  have hv' : ValidateGameState { s with board := t s.board } = true := by
    unfold ValidateGameState at hv ⊢
    rw [validateFields_iff] at hv ⊢
    exact ⟨hv.1, fun x hx => hv.2 x ((ht _ x).mp hx)⟩
  obtain ⟨h1, h2⟩ := MoveLeft_safe _ hv' hno hm
  constructor
  · rw [not_full_iff] at h1 ⊢
    exact (hu _ 0).mpr h1
  · unfold ValidateGameState at h2 ⊢
    rw [validateFields_iff] at h2 ⊢
    exact ⟨h2.1, fun x hx => h2.2 x ((hu _ x).mp hx)⟩

theorem applyMove_safe (d : Direction) (s : GameState) (hv : ValidateGameState s = true)
    (hno : NoOverflow (orient d s)) (hm : (applyMove d s).2 = true) :
    ¬ (applyMove d s).1.board.full ∧ ValidateGameState (applyMove d s).1 = true := by
  cases d with
  | left => exact MoveLeft_safe s hv hno hm
  | right =>
    simp only [applyMove, MoveRight, orient, ReverseRows] at hno hm ⊢
    exact conjugate_safe reverseRowsBoard reverseRowsBoard mem_cells_reverseRows
      mem_cells_reverseRows s hv hno hm
  | up =>
    simp only [applyMove, MoveUp, orient, Transpose] at hno hm ⊢
    exact conjugate_safe transposeBoard transposeBoard mem_cells_transpose
      mem_cells_transpose s hv hno hm
  | down =>
    simp only [applyMove, MoveDown, orient, Transpose, ReverseRows] at hno hm ⊢
    exact conjugate_safe (fun b => reverseRowsBoard (transposeBoard b))
      (fun b => transposeBoard (reverseRowsBoard b))
      (fun b x => by rw [mem_cells_reverseRows, mem_cells_transpose])
      (fun b x => by rw [mem_cells_transpose, mem_cells_reverseRows]) s hv hno hm

theorem HandleKeyPress_no_error (s : GameState) (hv : ValidateGameState s = true)
    (d : Direction) (keyboardEnabled : Bool) (wParam lParam index : Nat) (below : Bool)
    (hkey : keyDirection wParam = some d) (hno : NoOverflow (orient d s))
    (hidx : emptyCells (applyMove d s).1.board ≠ [] →
      index < (emptyCells (applyMove d s).1.board).length) :
    (HandleKeyPress s keyboardEnabled wParam lParam index below).2 = none := by
  unfold HandleKeyPress
  split
  · rfl
  · split
    · rfl
    · rw [hkey]
      simp only
      by_cases hm : (applyMove d s).2 = true
      · obtain ⟨hnf, hvalid⟩ := applyMove_safe d s hv hno hm
        have hne : emptyCells (applyMove d s).1.board ≠ [] :=
          fun h => hnf ((emptyCells_eq_nil_iff _).mp h)
        obtain ⟨ci, cj, -, -, -, hres⟩ :=
          AddRandomTile_of_not_full (applyMove d s).1 index below hvalid hne (hidx hne)
        rw [if_pos hm, hres]
      · rw [if_neg hm]

/-- C14: on a state the validator accepts, for each of the four moves, if no 32-bit
overflow occurs in the MoveLeft call the move wraps and the move reports
`moved = true`, then the resulting board has an empty cell and the resulting state
is accepted by the validator; hence whatever the key and the random draws,
HandleKeyPress catches neither the no-empty-cell nor the state-invalid
exception. -/
theorem move_then_spawn_safe (s : GameState) (hv : ValidateGameState s = true) :
    (NoOverflow s → (MoveLeft s).2 = true →
      ¬ (MoveLeft s).1.board.full ∧ ValidateGameState (MoveLeft s).1 = true) ∧
    (NoOverflow (ReverseRows s) → (MoveRight s).2 = true →
      ¬ (MoveRight s).1.board.full ∧ ValidateGameState (MoveRight s).1 = true) ∧
    (NoOverflow (Transpose s) → (MoveUp s).2 = true →
      ¬ (MoveUp s).1.board.full ∧ ValidateGameState (MoveUp s).1 = true) ∧
    (NoOverflow (ReverseRows (Transpose s)) → (MoveDown s).2 = true →
      ¬ (MoveDown s).1.board.full ∧ ValidateGameState (MoveDown s).1 = true) ∧
    (∀ (d : Direction) (keyboardEnabled : Bool) (wParam lParam index : Nat) (below : Bool),
      keyDirection wParam = some d → NoOverflow (orient d s) →
      (emptyCells (applyMove d s).1.board ≠ [] →
        index < (emptyCells (applyMove d s).1.board).length) →
      (HandleKeyPress s keyboardEnabled wParam lParam index below).2 = none) :=
  ⟨applyMove_safe Direction.left s hv, applyMove_safe Direction.right s hv,
   applyMove_safe Direction.up s hv, applyMove_safe Direction.down s hv,
   fun d ke wParam lParam index below hkey hno hidx =>
     HandleKeyPress_no_error s hv d ke wParam lParam index below hkey hno hidx⟩

/-- Witness of C14: the left arrow on `exampleState`. -/
theorem move_then_spawn_safe_witness :
    ValidateGameState exampleState = true ∧ NoOverflow exampleState ∧
    (MoveLeft exampleState).2 = true ∧
    (¬ (MoveLeft exampleState).1.board.full ∧
      ValidateGameState (MoveLeft exampleState).1 = true) ∧
    (HandleKeyPress exampleState true VK_LEFT 0 0 true).2 = none :=
  ⟨by decide, by decide, by decide,
   (move_then_spawn_safe exampleState (by decide)).1 (by decide) (by decide),
   (move_then_spawn_safe exampleState (by decide)).2.2.2.2 Direction.left true VK_LEFT 0 0 true
     (by decide) (by decide) (by decide)⟩

/-! ## C15: CanMove and the four moves -/

theorem fixedLeft_iff (r : Row) :
    r.fixedLeft ↔ padRight (dropZeros r.toList) = r.toList ∧ leftTiles r.toList = [] := by
  unfold Row.fixedLeft
  constructor
  · intro h
    have hl : leftRow r.toList = r.toList := by
      have := congrArg Row.toList h
      rwa [toList_rowOfList _ (leftRow_length _ (by rfl))] at this
    obtain ⟨h1, h2⟩ := leftRow_fixed _ hl
    exact ⟨h2, h1⟩
  · rintro ⟨h1, h2⟩
    unfold leftTiles at h2
    unfold leftRow
    rw [mergePairsW_of_no_tiles _ h2, h1]
    rfl

theorem forall_lt_three (p : Nat → Prop) : (∀ j, j < 3 → p j) ↔ p 0 ∧ p 1 ∧ p 2 := by
  constructor
  · intro h
    exact ⟨h 0 (by omega), h 1 (by omega), h 2 (by omega)⟩
  · rintro ⟨h0, h1, h2⟩ j hj
    match j, hj with
    | 0, _ => exact h0
    | 1, _ => exact h1
    | 2, _ => exact h2

theorem stuck_iff (r : Row) : r.fixedLeft ∧ r.reverse.fixedLeft ↔ r.stuck := by
  rw [fixedLeft_iff, fixedLeft_iff]
  unfold Row.stuck
  rw [forall_lt_four, forall_lt_four, forall_lt_three]
  rcases r with ⟨a, b, c, d⟩
  by_cases ha : a = 0 <;> by_cases hb : b = 0 <;> by_cases hc : c = 0 <;> by_cases hd : d = 0 <;>
    simp [Row.reverse, Row.toList, Row.get, padRight, dropZeros, leftTiles, mergedTilesW,
      ha, hb, hc, hd]
  simp only [eq_comm (a := d) (b := c), eq_comm (a := c) (b := b), eq_comm (a := b) (b := a)]
  by_cases hab : a = b <;> by_cases hbc : b = c <;> by_cases hcd : c = d <;>
    simp [hab, hbc, hcd]

theorem reverseRows_row_eq (b : Board) (i : Nat) (hi : i < 4) :
    (reverseRowsBoard b).row i = (b.row i).reverse := by
  rw [reverseRowsBoard_eq]
  match i, hi with
  | 0, _ => rfl
  | 1, _ => rfl
  | 2, _ => rfl
  | 3, _ => rfl

theorem leftBoard_fixed_iff (b : Board) :
    leftBoard b = b ↔ ∀ i, i < 4 → (b.row i).fixedLeft := by
  rw [forall_lt_four]
  rcases b with ⟨r0, r1, r2, r3⟩
  simp only [leftBoard, Board.mk.injEq, Board.row, Row.fixedLeft]

theorem MoveLeft_not_moved_iff (s : GameState) :
    (MoveLeft s).2 = false ↔ ∀ i, i < 4 → (s.board.row i).fixedLeft := by
  rw [MoveLeft_eq, ← leftBoard_fixed_iff]
  simp

theorem no_move_iff_stuck (s : GameState) :
    ((MoveLeft s).2 = false ∧ (MoveRight s).2 = false ∧ (MoveUp s).2 = false ∧
      (MoveDown s).2 = false) ↔
    (∀ i, i < 4 → (s.board.row i).stuck) ∧
    (∀ j, j < 4 → ((transposeBoard s.board).row j).stuck) := by
  have hr : (MoveRight s).2 = false ↔ ∀ i, i < 4 → (s.board.row i).reverse.fixedLeft := by
    simp only [MoveRight]
    rw [MoveLeft_not_moved_iff]
    simp only [ReverseRows]
    constructor
    · intro h i hi
      rw [← reverseRows_row_eq _ i hi]
      exact h i hi
    · intro h i hi
      rw [reverseRows_row_eq _ i hi]
      exact h i hi
  have hu : (MoveUp s).2 = false ↔ ∀ j, j < 4 → ((transposeBoard s.board).row j).fixedLeft := by
    simp only [MoveUp]
    rw [MoveLeft_not_moved_iff]
    simp only [Transpose]
  have hd : (MoveDown s).2 = false ↔
      ∀ j, j < 4 → ((transposeBoard s.board).row j).reverse.fixedLeft := by
    simp only [MoveDown]
    rw [MoveLeft_not_moved_iff]
    simp only [ReverseRows, Transpose]
    constructor
    · intro h i hi
      rw [← reverseRows_row_eq _ i hi]
      exact h i hi
    · intro h i hi
      rw [reverseRows_row_eq _ i hi]
      exact h i hi
  rw [MoveLeft_not_moved_iff, hr, hu, hd]
  constructor
  · rintro ⟨h1, h2, h3, h4⟩
    exact ⟨fun i hi => (stuck_iff _).mp ⟨h1 i hi, h2 i hi⟩,
      fun j hj => (stuck_iff _).mp ⟨h3 j hj, h4 j hj⟩⟩
  · rintro ⟨h1, h2⟩
    exact ⟨fun i hi => ((stuck_iff _).mpr (h1 i hi)).1, fun i hi => ((stuck_iff _).mpr (h1 i hi)).2,
      fun j hj => ((stuck_iff _).mpr (h2 j hj)).1, fun j hj => ((stuck_iff _).mpr (h2 j hj)).2⟩

theorem stuck_rows_cols_iff (b : Board) (ht : b.hasTile) :
    ((∀ i, i < 4 → (b.row i).stuck) ∧ (∀ j, j < 4 → ((transposeBoard b).row j).stuck)) ↔
      (b.full ∧ ¬ b.hasEqualNeighbours) := by
  have hrow : ∀ i, i < 4 → ((b.row i).stuck ↔
      ((∀ j, j < 4 → b.get i j = 0) ∨
        ((∀ j, j < 4 → b.get i j ≠ 0) ∧ ∀ j, j < 3 → b.get i j ≠ b.get i (j + 1)))) :=
    fun i _ => Iff.rfl
  have hcol : ∀ j, j < 4 → (((transposeBoard b).row j).stuck ↔
      ((∀ i, i < 4 → b.get i j = 0) ∨
        ((∀ i, i < 4 → b.get i j ≠ 0) ∧ ∀ i, i < 3 → b.get i j ≠ b.get (i + 1) j))) := by
    intro j hj
    have hg : ∀ i, i < 4 → ((transposeBoard b).row j).get i = b.get i j :=
      fun i hi => transpose_get b j i hj hi
    unfold Row.stuck
    constructor
    · rintro (h | ⟨h1, h2⟩)
      · exact Or.inl (fun i hi => by rw [← hg i hi]; exact h i hi)
      · refine Or.inr ⟨fun i hi => by rw [← hg i hi]; exact h1 i hi, fun i hi => ?_⟩
        rw [← hg i (by omega), ← hg (i + 1) (by omega)]
        exact h2 i hi
    · rintro (h | ⟨h1, h2⟩)
      · exact Or.inl (fun i hi => by rw [hg i hi]; exact h i hi)
      · refine Or.inr ⟨fun i hi => by rw [hg i hi]; exact h1 i hi, fun i hi => ?_⟩
        rw [hg i (by omega), hg (i + 1) (by omega)]
        exact h2 i hi
  obtain ⟨i0, hi0, j0, hj0, hne0⟩ := ht
  constructor
  · rintro ⟨hr, hc⟩
    have hrow0 : ∀ j, j < 4 → b.get i0 j ≠ 0 := by
      rcases (hrow i0 hi0).mp (hr i0 hi0) with h | ⟨h, -⟩
      · exact absurd (h j0 hj0) hne0
      · exact h
    have hcolfull : ∀ j, j < 4 →
        ((∀ i, i < 4 → b.get i j ≠ 0) ∧ ∀ i, i < 3 → b.get i j ≠ b.get (i + 1) j) := by
      intro j hj
      rcases (hcol j hj).mp (hc j hj) with h | h
      · exact absurd (h i0 hi0) (hrow0 j hj)
      · exact h
    have hfull : b.full := fun i hi j hj => (hcolfull j hj).1 i hi
    refine ⟨hfull, ?_⟩
    rintro (⟨i, hi, j, hj, heq⟩ | ⟨i, hi, j, hj, heq⟩)
    · rcases (hrow i hi).mp (hr i hi) with h | ⟨-, h⟩
      · exact hfull i hi 0 (by omega) (h 0 (by omega))
      · exact h j hj heq
    · exact (hcolfull j hj).2 i hi heq
  · rintro ⟨hfull, hno⟩
    constructor
    · intro i hi
      refine (hrow i hi).mpr (Or.inr ⟨fun j hj => hfull i hi j hj, fun j hj heq => ?_⟩)
      exact hno (Or.inl ⟨i, hi, j, hj, heq⟩)
    · intro j hj
      refine (hcol j hj).mpr (Or.inr ⟨fun i hi => hfull i hi j hj, fun i hi heq => ?_⟩)
      exact hno (Or.inr ⟨i, hi, j, hj, heq⟩)

/-- C15: on every board with at least one nonzero tile, CanMove returns true exactly
when one of MoveLeft, MoveRight, MoveUp, MoveDown reports `moved = true`; so on a
state whose `gameOver` is false, CheckGameOver sets it exactly when none of the
four moves would move. -/
theorem CanMove_iff_some_move (s : GameState) (ht : s.board.hasTile) :
    (CanMove s = true ↔
      ((MoveLeft s).2 = true ∨ (MoveRight s).2 = true ∨ (MoveUp s).2 = true ∨
        (MoveDown s).2 = true)) ∧
    (s.gameOver = false →
      ((CheckGameOver s).gameOver = true ↔
        ((MoveLeft s).2 = false ∧ (MoveRight s).2 = false ∧ (MoveUp s).2 = false ∧
          (MoveDown s).2 = false))) := by
  have hfalse : CanMove s = false ↔
      ((MoveLeft s).2 = false ∧ (MoveRight s).2 = false ∧ (MoveUp s).2 = false ∧
        (MoveDown s).2 = false) := by
    have h1 : CanMove s = false ↔ (s.board.full ∧ ¬ s.board.hasEqualNeighbours) := by
      rw [← Bool.not_eq_true, CanMove_eq_true_iff]
      tauto
    exact h1.trans ((no_move_iff_stuck s).trans (stuck_rows_cols_iff s.board ht)).symm
  have hcheck : (CheckGameOver s).gameOver = (s.gameOver || !CanMove s) := by
    unfold CheckGameOver
    cases hc : CanMove s <;> simp
  rw [hcheck]
  revert hfalse
  generalize (MoveLeft s).2 = ml
  generalize (MoveRight s).2 = mr
  generalize (MoveUp s).2 = mu
  generalize (MoveDown s).2 = md
  generalize CanMove s = cm
  generalize s.gameOver = go
  intro hfalse
  cases cm <;> cases ml <;> cases mr <;> cases mu <;> cases md <;> cases go <;> simp_all

/-- Witness of C15: on the full checkered board CanMove is false, CheckGameOver sets
`gameOver` and no move moves; on `exampleState` CanMove is true and a move moves. -/
theorem CanMove_iff_some_move_witness :
    stuckState.board.hasTile ∧ (CheckGameOver stuckState).gameOver = true ∧
    ((MoveLeft stuckState).2 = false ∧ (MoveRight stuckState).2 = false ∧
      (MoveUp stuckState).2 = false ∧ (MoveDown stuckState).2 = false) ∧
    exampleState.board.hasTile ∧ CanMove exampleState = true ∧
    ((MoveLeft exampleState).2 = true ∨ (MoveRight exampleState).2 = true ∨
      (MoveUp exampleState).2 = true ∨ (MoveDown exampleState).2 = true) :=
  ⟨by decide, by decide,
   ((CanMove_iff_some_move stuckState (by decide)).2 rfl).mp (by decide),
   by decide, by decide,
   (CanMove_iff_some_move exampleState (by decide)).1.mp (by decide)⟩

end Game2048
